import Mathlib

/-!
Verification of the InnoDB_rs on-disk decoder against its specification.

Shallow embedding conventions:
* bytes are `Nat` values (a well-formed byte is `< 256`);
* Rust machine integers are `Nat`/`Int` with explicit `% 2^w` where the
  source's arithmetic wraps (release-mode semantics for overflow);
* fallible Rust functions become `Except`/`Option`; a Rust `panic!`,
  failed `assert!`, `unwrap` or arithmetic-overflow abort is modelled as a
  distinguished failure value;
* borrowed `&[u8]` slices become `List Nat`.
-/

namespace InnoDB

abbrev Byte := Nat

/-- Wrap-around modulus of 32-bit arithmetic. -/
def M32 : Nat := 2 ^ 32

/-- Wrap-around modulus of 64-bit arithmetic. -/
def M64 : Nat := 2 ^ 64

/-! ### Evaluation helper

Kernel-friendly iteration: `iterOp f fuel n a` computes `f^[n] a` with an
evaluation stack logarithmic in `n` (halving plus forcing of intermediate
`Nat` results), so that concrete checksums of whole 16 KiB pages can be
checked by `decide` without blowing the interpreter stack. -/

def nforce (g : Nat → Nat) (x : Nat) : Nat :=
  match x with
  | 0 => g 0
  | (m + 1) => g (m + 1)

def iterOp (f : Nat → Nat) : Nat → Nat → Nat → Nat
  | 0, _, a => a
  | fuel + 1, n, a =>
    if n = 0 then a
    else if n % 2 = 1 then nforce (iterOp f fuel (n - 1)) (f a)
    else nforce (iterOp f fuel (n / 2)) (iterOp f fuel (n / 2) a)

/-! ## Page framing (src/src/innodb/page/mod.rs) -/

def HASH_RANDOM_MASK : Nat := 1463735687

def HASH_RANDOM_MASK2 : Nat := 1653893711

def FIL_PAGE_SIZE : Nat := 16384

def FIL_TRAILER_SIZE : Nat := 8

def FIL_HEADER_OFFSET : Nat := 0

def FIL_HEADER_SIZE : Nat := 38

def FIL_HEADER_PARTIAL_OFFSET : Nat := 4

def FIL_HEADER_PARTIAL_SIZE : Nat := FIL_HEADER_SIZE - 4 - 8 - 4

def FIL_PAGE_BODY_OFFSET : Nat := FIL_HEADER_OFFSET + FIL_HEADER_SIZE

def FIL_PAGE_BODY_SIZE : Nat := FIL_PAGE_SIZE - FIL_HEADER_SIZE - FIL_TRAILER_SIZE

/-- `fold_pair` of src/src/innodb/page/mod.rs; u32 arithmetic, `<<` and
`wrapping_add` reduce mod `2^32`. -/
def fold_pair (n1 n2 : Nat) : Nat :=
  (((((n1 ^^^ n2 ^^^ HASH_RANDOM_MASK2) <<< 8) % M32 + n1) % M32 ^^^ HASH_RANDOM_MASK)
      + n2) % M32

/-- `fold_bytes` of src/src/innodb/page/mod.rs. -/
def fold_bytes (buf : List Byte) : Nat :=
  buf.foldl (fun fold b => fold_pair fold b) 0

/-- One bit-step of reflected CRC-32C.
Modelled from the spec: CRC-32C with the Castagnoli polynomial; the `crc`
crate (`Crc::<u32>::new(&CRC_32_ISCSI)`) is external to this repository, so
its checksum function is modelled by the standard reflected bitwise
algorithm (reversed polynomial `0x82F63B78`, init and xorout `0xFFFFFFFF`). -/
def crc32c_bit (c : Nat) : Nat :=
  if c % 2 = 1 then (c >>> 1) ^^^ 0x82F63B78 else c >>> 1

/-- CRC-32C of a byte buffer (see `crc32c_bit`). -/
def crc32c (buf : List Byte) : Nat :=
  (buf.foldl (fun c b => crc32c_bit^[8] (c ^^^ b)) 0xFFFFFFFF) ^^^ 0xFFFFFFFF

/-- `PageType` of src/src/innodb/page/mod.rs. -/
inductive PageType where
  | Allocated
  | UndoLog
  | Inode
  | IbufFreeList
  | IbufBitmap
  | Sys
  | TrxSys
  | FspHdr
  | Xdes
  | Blob
  | Zblob
  | Zblob2
  | Unknown
  | Compressed
  | Encrypted
  | CompressedAndEncrypted
  | EncryptedRtree
  | SdiBlob
  | SdiZblob
  | LegacyDblwr
  | RsegArray
  | LobIndex
  | LobData
  | LobFirst
  | ZlobFirst
  | ZlobData
  | ZlobIndex
  | ZlobFrag
  | ZlobFragEntry
  | SDI
  | RTree
  | Index
  deriving DecidableEq, Repr

/-- `PageType::try_from_primitive` combined with the `Unknown` fallback used
in `FILHeader::from_bytes`: every u16 value decodes, unknown ones to
`Unknown`. -/
def PageType.fromU16 (v : Nat) : PageType :=
  match v with
  | 0 => .Allocated
  | 2 => .UndoLog
  | 3 => .Inode
  | 4 => .IbufFreeList
  | 5 => .IbufBitmap
  | 6 => .Sys
  | 7 => .TrxSys
  | 8 => .FspHdr
  | 9 => .Xdes
  | 10 => .Blob
  | 11 => .Zblob
  | 12 => .Zblob2
  | 13 => .Unknown
  | 14 => .Compressed
  | 15 => .Encrypted
  | 16 => .CompressedAndEncrypted
  | 17 => .EncryptedRtree
  | 18 => .SdiBlob
  | 19 => .SdiZblob
  | 20 => .LegacyDblwr
  | 21 => .RsegArray
  | 22 => .LobIndex
  | 23 => .LobData
  | 24 => .LobFirst
  | 25 => .ZlobFirst
  | 26 => .ZlobData
  | 27 => .ZlobIndex
  | 28 => .ZlobFrag
  | 29 => .ZlobFragEntry
  | 17853 => .SDI
  | 17854 => .RTree
  | 17855 => .Index
  | _ => .Unknown

/-- Byte access `buf[i]`; every use below is guarded by a length check the
source performs first, so the default never fires on the source's paths. -/
def byteAt (buf : List Byte) (i : Nat) : Byte :=
  buf.getD i 0

/-- `u16::from_be_bytes` on two consecutive bytes. -/
def be16at (buf : List Byte) (i : Nat) : Nat :=
  byteAt buf i * 256 + byteAt buf (i + 1)

/-- `u32::from_be_bytes` on four consecutive bytes. -/
def be32at (buf : List Byte) (i : Nat) : Nat :=
  ((byteAt buf i * 256 + byteAt buf (i + 1)) * 256 + byteAt buf (i + 2)) * 256
    + byteAt buf (i + 3)

/-- `u64::from_be_bytes` on eight consecutive bytes. -/
def be64at (buf : List Byte) (i : Nat) : Nat :=
  be32at buf i * 2 ^ 32 + be32at buf (i + 4)

/-- Error kinds of the page-framing layer.  The source returns
`anyhow::Error` values; each distinct failure site gets one constructor
(`invalidLength` is the "Page is 16kB" length failure of
`Page::from_bytes`). -/
inductive PageErr where
  | invalidLength
  | headerTooShort
  | trailerBadLength
  deriving DecidableEq, Repr

/-- `FILHeader` of src/src/innodb/page/mod.rs. -/
structure FILHeader where
  new_checksum : Nat
  offset : Nat
  prev : Nat
  next : Nat
  lsn : Nat
  page_type : PageType
  flush_lsn : Nat
  space_id : Nat
  deriving DecidableEq, Repr

/-- `FILHeader::from_bytes`. -/
def FILHeader.from_bytes (buffer : List Byte) : Except PageErr FILHeader :=
  if buffer.length < 38 then .error .headerTooShort
  else .ok {
    new_checksum := be32at buffer 0
    offset := be32at buffer 4
    prev := be32at buffer 8
    next := be32at buffer 12
    lsn := be64at buffer 16
    page_type := PageType.fromU16 (be16at buffer 24)
    flush_lsn := be64at buffer 26
    space_id := be32at buffer 34 }

/-- `FILTrailer` of src/src/innodb/page/mod.rs. -/
structure FILTrailer where
  old_checksum : Nat
  lsn_low_32 : Nat
  deriving DecidableEq, Repr

/-- `FILTrailer::from_bytes`. -/
def FILTrailer.from_bytes (buffer : List Byte) : Except PageErr FILTrailer :=
  if buffer.length ≠ FIL_TRAILER_SIZE then .error .trailerBadLength
  else .ok { old_checksum := be32at buffer 0, lsn_low_32 := be32at buffer 4 }

/-- `Page` of src/src/innodb/page/mod.rs. -/
structure Page where
  header : FILHeader
  trailer : FILTrailer
  raw_data : List Byte
  deriving Repr

/-- `Page::from_bytes`. -/
def Page.from_bytes (buf : List Byte) : Except PageErr Page :=
  if buf.length ≠ 16384 then .error .invalidLength
  else
    match FILHeader.from_bytes (buf.take 38) with
    | .error e => .error e
    | .ok header =>
      match FILTrailer.from_bytes (buf.drop (FIL_PAGE_SIZE - FIL_TRAILER_SIZE)) with
      | .error e => .error e
      | .ok trailer => .ok { header := header, trailer := trailer, raw_data := buf }

/-- `Page::partial_page_header`. -/
def Page.partial_page_header (p : Page) : List Byte :=
  (p.raw_data.drop FIL_HEADER_PARTIAL_OFFSET).take FIL_HEADER_PARTIAL_SIZE

/-- `Page::body`. -/
def Page.body (p : Page) : List Byte :=
  (p.raw_data.drop FIL_PAGE_BODY_OFFSET).take FIL_PAGE_BODY_SIZE

/-- `Page::innodb_checksum`; the final `wrapping_add` reduces mod `2^32`. -/
def Page.innodb_checksum (p : Page) : Nat :=
  (fold_bytes p.partial_page_header + fold_bytes p.body) % M32

/-- `Page::crc32_checksum`. -/
def Page.crc32_checksum (p : Page) : Nat :=
  crc32c p.partial_page_header ^^^ crc32c p.body

/-! ### Reference (spec-side) checksum definitions, written from the words
of the claim: partial header is bytes `4..26` of the page, the body is the
16338 bytes from byte 38, `fold_pair(a, b) =
((((a ^ b ^ 0x628E5B0F) << 8) + a) ^ 0x57417087) + b` wrapping mod `2^32`,
and the CRC-32C halves combine with XOR. -/

def claimed_fold_pair (a b : Nat) : Nat :=
  (((((a ^^^ b ^^^ 0x628E5B0F) <<< 8) % 2 ^ 32 + a) % 2 ^ 32 ^^^ 0x57417087) + b) % 2 ^ 32

def claimed_fold_bytes (buf : List Byte) : Nat :=
  buf.foldl claimed_fold_pair 0

def spec_partial_header (page : List Byte) : List Byte :=
  (page.drop 4).take 22

def spec_body (page : List Byte) : List Byte :=
  (page.drop 38).take 16338

def claimed_innodb_checksum (page : List Byte) : Nat :=
  (claimed_fold_bytes (spec_partial_header page) + claimed_fold_bytes (spec_body page)) % 2 ^ 32

/-- Spec-side fold with the code's (correct) mask constants; this is the
amended reference formula of claim C2. -/
def amended_fold_pair (a b : Nat) : Nat :=
  (((((a ^^^ b ^^^ 1653893711) <<< 8) % 2 ^ 32 + a) % 2 ^ 32 ^^^ 1463735687) + b) % 2 ^ 32

def amended_fold_bytes (buf : List Byte) : Nat :=
  buf.foldl amended_fold_pair 0

def amended_innodb_checksum (page : List Byte) : Nat :=
  (amended_fold_bytes (spec_partial_header page) + amended_fold_bytes (spec_body page)) % 2 ^ 32

def spec_crc32_checksum (page : List Byte) : Nat :=
  crc32c (spec_partial_header page) ^^^ crc32c (spec_body page)

/-- An all-zero page value used as the concrete counterexample input. -/
def zeroPage : Page :=
  { header := { new_checksum := 0, offset := 0, prev := 0, next := 0, lsn := 0,
                page_type := .Allocated, flush_lsn := 0, space_id := 0 }
    trailer := { old_checksum := 0, lsn_low_32 := 0 }
    raw_data := List.replicate 16384 0 }


/-! ## Field integer codec (src/src/innodb/table/field.rs)

`parse_uint` and `parse_signed_int` are methods on `Field` whose `self` is
unused; they are embedded as functions of the buffer and width.  A byte of
a well-formed buffer is `< 256` (`&[u8]` in the source). -/

/-- `Field::parse_uint`: big-endian accumulation of `len` bytes into a u64
(`(num << 8) | byte`, wrapping mod `2^64`); the two `assert!`s (width at
most 8, buffer long enough) are modelled as `none`. -/
def parse_uint (buf : List Byte) (len : Nat) : Option Nat :=
  if 8 < len then none
  else if buf.length < len then none
  else some ((buf.take len).foldl (fun num byte => ((num <<< 8) % M64) ||| byte) 0)

/-- `Field::parse_signed_int` under release-mode (wrapping) semantics.  The
source flips the sign bit, and on a set sign bit negates via
`!(num - 1)` and masks with `(1u64 << (len * 8)) - 1`.  For `len = 8` that
shift amount is 64: a panic in debug builds; with wrapping semantics the
shift amount is reduced mod 64, which this model follows
(`1 <<< (len * 8 % 64)`).  Callers only pass `1 ≤ len ≤ 8`. -/
def parse_signed_int (buf : List Byte) (len : Nat) : Option Int :=
  match parse_uint buf len with
  | none => none
  | some u =>
    let num := u ^^^ (1 <<< (len * 8 - 1))
    if num &&& (1 <<< (len * 8 - 1)) ≠ 0 then
      let num2 := M64 - num
      let num3 := num2 &&& ((1 <<< (len * 8 % 64)) - 1)
      some (-(num3 : Int))
    else some (num : Int)

/-- Reference signed decoding written from the words of claim C1: read the
`w` bytes as an unsigned big-endian integer, XOR with `1 <<< (w*8-1)`, then
two's-complement sign-extend over `w` bytes. -/
def spec_signed_decode (buf : List Byte) (w : Nat) : Int :=
  let u := (buf.take w).foldl (fun a b => a * 256 + b) 0
  let x := u ^^^ (1 <<< (w * 8 - 1))
  if x < 1 <<< (w * 8 - 1) then (x : Int) else (x : Int) - ((1 <<< (w * 8) : Nat) : Int)

/-- The 8-byte big-endian wire form of `v = -1` (sign bit already flipped):
`7F FF FF FF FF FF FF FF`. -/
def c1buf : List Byte := [0x7F, 0xFF, 0xFF, 0xFF, 0xFF, 0xFF, 0xFF, 0xFF]



/-! ## Field codec (src/src/innodb/table/field.rs) -/

/-- Modelled from the spec: `InnoDBCharset` (src/src/innodb/charset.rs is
not present under src/); the decoder consumes a charset only through
`max_len()`, the per-charset max bytes per character, so the model carries
that number. -/
structure InnoDBCharset where
  max_bytes : Nat
  deriving DecidableEq, Repr

/-- `InnoDBCharset::max_len`. -/
def InnoDBCharset.max_len (c : InnoDBCharset) : Nat := c.max_bytes

/-- `FieldType` of src/src/innodb/table/field.rs; strings are lists of
Unicode scalar values. -/
inductive FieldType where
  | TinyInt (signed : Bool)
  | SmallInt (signed : Bool)
  | MediumInt (signed : Bool)
  | Int (signed : Bool)
  | Int6 (signed : Bool)
  | BigInt (signed : Bool)
  | Float
  | Double
  | Enum (values : List (List Nat))
  | Text (len : Nat) (charset : InnoDBCharset)
  | Char (len : Nat) (charset : InnoDBCharset)
  | Date
  | DateTime
  | Timestamp
  deriving DecidableEq, Repr

/-- `FieldType::is_variable`. -/
def FieldType.is_variable : FieldType → Bool
  | .Text _ _ => true
  | _ => false

/-- `FieldType::max_len`. -/
def FieldType.max_len : FieldType → Nat
  | .TinyInt _ => 1
  | .SmallInt _ => 2
  | .MediumInt _ => 3
  | .Int _ => 4
  | .Int6 _ => 6
  | .BigInt _ => 8
  | .Float => 4
  | .Double => 8
  | .Enum _ => 2
  | .Text len charset => len * charset.max_len
  | .Char len charset => len * charset.max_len
  | .Date => 3
  | .DateTime => 8
  | .Timestamp => 4

/-- `FieldValue` of src/src/innodb/table/field.rs. -/
inductive FieldValue where
  | SignedInt (v : Int)
  | UnsignedInt (v : Nat)
  | String (s : List Nat)
  | PartialString (s : List Nat) (total_len : Nat)
  | Null
  | Skipped
  deriving DecidableEq, Repr

/-- `Field` of src/src/innodb/table/field.rs. -/
structure Field where
  name : List Nat
  field_type : FieldType
  nullable : Bool
  deriving DecidableEq, Repr

/-- Lower bound of the second byte of a UTF-8 sequence led by `b1`. -/
def utf8b2lo (b1 : Nat) : Nat :=
  if b1 = 0xE0 then 0xA0 else if b1 = 0xF0 then 0x90 else 0x80

/-- Upper bound of the second byte of a UTF-8 sequence led by `b1`. -/
def utf8b2hi (b1 : Nat) : Nat :=
  if b1 = 0xED then 0x9F else if b1 = 0xF4 then 0x8F else 0xBF

/-- UTF-8 continuation byte. -/
def utf8cont (b : Nat) : Bool := 0x80 ≤ b && b ≤ 0xBF

/-- Strict UTF-8 decoding into Unicode scalar values, as validated by
`String::from_utf8` (overlong forms, surrogates and out-of-range values
rejected); `none` models the `Err` that the source turns into a panic via
`expect`. -/
def utf8Decode : List Byte → Option (List Nat)
  | [] => some []
  | b1 :: rest =>
    if b1 ≤ 0x7F then (utf8Decode rest).map (b1 :: ·)
    else if 0xC2 ≤ b1 && b1 ≤ 0xDF then
      match rest with
      | b2 :: rest2 =>
        if utf8b2lo b1 ≤ b2 && b2 ≤ utf8b2hi b1 then
          (utf8Decode rest2).map ((((b1 - 0xC0) <<< 6) + (b2 - 0x80)) :: ·)
        else none
      | [] => none
    else if 0xE0 ≤ b1 && b1 ≤ 0xEF then
      match rest with
      | b2 :: b3 :: rest3 =>
        if (utf8b2lo b1 ≤ b2 && b2 ≤ utf8b2hi b1) && utf8cont b3 then
          (utf8Decode rest3).map
            ((((b1 - 0xE0) <<< 12) + ((b2 - 0x80) <<< 6) + (b3 - 0x80)) :: ·)
        else none
      | _ => none
    else if 0xF0 ≤ b1 && b1 ≤ 0xF4 then
      match rest with
      | b2 :: b3 :: b4 :: rest4 =>
        if ((utf8b2lo b1 ≤ b2 && b2 ≤ utf8b2hi b1) && utf8cont b3) && utf8cont b4 then
          (utf8Decode rest4).map
            ((((b1 - 0xF0) <<< 18) + ((b2 - 0x80) <<< 12) + ((b3 - 0x80) <<< 6) + (b4 - 0x80)) :: ·)
        else none
      | _ => none
    else none

/-- Rust `char::is_whitespace`: the Unicode White_Space property. -/
def is_rust_whitespace (c : Nat) : Bool :=
  c == 0x09 || c == 0x0A || c == 0x0B || c == 0x0C || c == 0x0D || c == 0x20 ||
  c == 0x85 || c == 0xA0 || c == 0x1680 || (0x2000 ≤ c && c ≤ 0x200A) ||
  c == 0x2028 || c == 0x2029 || c == 0x202F || c == 0x205F || c == 0x3000

/-- Rust `str::trim_end`: remove trailing whitespace characters. -/
def trim_end (cs : List Nat) : List Nat :=
  (cs.reverse.dropWhile is_rust_whitespace).reverse

/-- Trailing-ASCII-space-only trim, written from the words of claim C7
("with trailing ASCII space characters (and only spaces) removed"). -/
def spec_trim_trailing_spaces (cs : List Nat) : List Nat :=
  (cs.reverse.dropWhile (fun c => c == 0x20)).reverse

/-- Decimal digits of a natural number, as characters. -/
def natDec (n : Nat) : List Nat := (Nat.toDigits 10 n).map Char.toNat

/-- Zero-pad a digit string on the left to width `w`. -/
def padNum (w : Nat) (s : List Nat) : List Nat := List.replicate (w - s.length) 0x30 ++ s

/-- Rust `{:0w}` formatting of an unsigned integer. -/
def fmtNat (w n : Nat) : List Nat := padNum w (natDec n)

/-- Rust `{:0w}` formatting of a signed integer: the sign counts toward the
width and the zeros pad after the sign. -/
def fmtInt (w : Nat) (v : Int) : List Nat :=
  if v < 0 then 0x2D :: padNum (w - 1) (natDec v.natAbs) else fmtNat w v.toNat

/-- Two's-complement 64-bit pattern of an i64 value (the Rust `as u64`
cast). -/
def i64bits (v : Int) : Nat := (v % (2 ^ 64 : Int)).toNat

/-- Year, month, day of a day count since 1970-01-01.
Modelled from the spec: the `chrono` crate (external to this repository)
renders `DateTime::from_timestamp(ts, 0)` with `%Y-%m-%d %H:%M:%S`; the
civil-from-days conversion is the standard Gregorian era algorithm. -/
def civilFromDays (z : Nat) : Nat × Nat × Nat :=
  let days := z + 719468
  let era := days / 146097
  let doe := days % 146097
  let yoe := (doe - doe / 1460 + doe / 36524 - doe / 146096) / 365
  let y := yoe + era * 400
  let doy := doe - (365 * yoe + yoe / 4 - yoe / 100)
  let mp := (5 * doy + 2) / 153
  let d := doy - (153 * mp + 2) / 5 + 1
  let m := if mp < 10 then mp + 3 else mp - 9
  (if m ≤ 2 then y + 1 else y, m, d)

/-- `%Y-%m-%d %H:%M:%S` rendering of a UNIX timestamp (see
`civilFromDays`). -/
def formatUnixTimestamp (ts : Nat) : List Nat :=
  let days := ts / 86400
  let secs := ts % 86400
  let ymd := civilFromDays days
  fmtNat 4 ymd.1 ++ 0x2D :: fmtNat 2 ymd.2.1 ++ 0x2D :: fmtNat 2 ymd.2.2 ++
    0x20 :: fmtNat 2 (secs / 3600) ++ 0x3A :: fmtNat 2 (secs % 3600 / 60) ++
    0x3A :: fmtNat 2 (secs % 60)

/-- The literal `"0000-00-00 00:00:00"`. -/
def zeroTimestampText : List Nat :=
  [48, 48, 48, 48, 45, 48, 48, 45, 48, 48, 32, 48, 48, 58, 48, 48, 58, 48, 48]

/-- `Field::parse_int_field`. -/
def parse_int_field (buf : List Byte) (len : Nat) (signed : Bool) : Option FieldValue :=
  if signed then (parse_signed_int buf len).map .SignedInt
  else (parse_uint buf len).map .UnsignedInt

/-- `Field::parse`: value and consumed length; `none` models the panics
(`expect` on invalid UTF-8, slice overruns, the length and enum-range
`assert!`s, and the `unimplemented!` arms for `Float`/`Double`). -/
def Field.parse (f : Field) (buf : List Byte) (length_opt : Option Nat) :
    Option (FieldValue × Nat) :=
  match f.field_type with
  | .TinyInt signed => (parse_int_field buf 1 signed).map (fun v => (v, 1))
  | .SmallInt signed => (parse_int_field buf 2 signed).map (fun v => (v, 2))
  | .MediumInt signed => (parse_int_field buf 3 signed).map (fun v => (v, 3))
  | .Int signed => (parse_int_field buf 4 signed).map (fun v => (v, 4))
  | .Int6 signed => (parse_int_field buf 6 signed).map (fun v => (v, 6))
  | .BigInt signed => (parse_int_field buf 8 signed).map (fun v => (v, 8))
  | .Char len _ =>
    if buf.length < len then none
    else
      match utf8Decode (buf.take len) with
      | none => none
      | some cs => some (.String (trim_end cs), len)
  | .Text _ _ =>
    match length_opt with
    | none => some (.Null, 0)
    | some length =>
      if length ≤ f.field_type.max_len then
        if buf.length < length then none
        else
          match utf8Decode (buf.take length) with
          | none => none
          | some cs => some (.String (trim_end cs), length)
      else none
  | .Date =>
    match parse_signed_int buf 3 with
    | none => none
    | some date_num =>
      let bits := i64bits date_num
      let day := bits &&& 0x1F
      let month := (bits >>> 5) &&& 0xF
      let year := Int.fdiv date_num 512
      some (.String (fmtInt 4 year ++ 0x2D :: fmtNat 2 month ++ 0x2D :: fmtNat 2 day), 3)
  | .DateTime =>
    match parse_signed_int buf 8 with
    | none => none
    | some dtv =>
      let datetime := i64bits dtv
      let yd := datetime >>> 46
      let year := yd / 13
      let month := yd - year * 13
      let day := (datetime >>> 41) &&& 0x1F
      let hour := (datetime >>> 36) &&& 0x1F
      let minute := (datetime >>> 30) &&& 0x3F
      let sec := (datetime >>> 24) &&& 0x3F
      some (.String (fmtNat 4 year ++ 0x2D :: fmtNat 2 month ++ 0x2D :: fmtNat 2 day ++
        0x20 :: fmtNat 2 hour ++ 0x3A :: fmtNat 2 minute ++ 0x3A :: fmtNat 2 sec), 8)
  | .Timestamp =>
    match parse_uint buf 4 with
    | none => none
    | some ts =>
      if ts = 0 then some (.String zeroTimestampText, 4)
      else some (.String (formatUnixTimestamp ts), 4)
  | .Enum values =>
    let len := if values.length ≤ 255 then 1 else 2
    match parse_uint buf len with
    | none => none
    | some num =>
      if num = 0 then some (.String [], len)
      else if num - 1 < values.length then some (.String (values.getD (num - 1) []), len)
      else none
  | .Float => none
  | .Double => none



/-! ## Record layer (src/src/innodb/page/record.rs, src/src/innodb/mod.rs) -/

/-- `InnoDBError` of src/src/innodb/mod.rs. -/
inductive InnoDBError where
  | InvalidLength
  | InvalidChecksum
  | InvalidPage
  | PageNotFound
  | InvalidPageType (expected : PageType) (has : PageType)
  deriving DecidableEq, Repr

/-- Error values that record construction can return (the source returns
`anyhow::Error`): the `InfoFlags` bitfield failure, the `num_enum`
`TryFromPrimitiveError` for `RecordType`, or a wrapped `InnoDBError`. -/
inductive RecErr where
  | unexpectedBitfield
  | recordTypeOutOfRange
  | innodb (e : InnoDBError)
  deriving DecidableEq, Repr

/-- Outcome of a fallible record operation: a value, a returned error, or a
panic (failed `assert!`, out-of-bounds slice index, `unwrap` of `None`). -/
inductive RunRes (α : Type) where
  | ok (a : α)
  | err (e : RecErr)
  | panic
  deriving DecidableEq, Repr

/-- `RecordType` of src/src/innodb/page/record.rs. -/
inductive RecordType where
  | Conventional
  | NodePointer
  | Infimum
  | Supremum
  deriving DecidableEq, Repr

/-- `RecordType::try_from_primitive` (`num_enum`): values 0..3 decode, all
others are errors. -/
def RecordType.try_from_primitive (v : Nat) : Option RecordType :=
  match v with
  | 0 => some .Conventional
  | 1 => some .NodePointer
  | 2 => some .Infimum
  | 3 => some .Supremum
  | _ => none

/-- `InfoFlags` of src/src/innodb/page/record.rs. -/
structure InfoFlags where
  min_rec : Bool
  deleted : Bool
  deriving DecidableEq, Repr

/-- `InfoFlags::try_from_primitive`; `!0x3u8 = 0xFC`. -/
def InfoFlags.try_from_primitive (flags : Nat) : Except RecErr InfoFlags :=
  if flags &&& 0xFC ≠ 0 then .error .unexpectedBitfield
  else .ok { min_rec := decide ((flags &&& 0x1) ≠ 0), deleted := decide ((flags &&& 0x2) ≠ 0) }

/-- `i16::from_be_bytes` of two bytes. -/
def i16fromBE (b0 b1 : Nat) : Int :=
  if b0 * 256 + b1 < 0x8000 then ((b0 * 256 + b1 : Nat) : Int)
  else ((b0 * 256 + b1 : Nat) : Int) - 0x10000

/-- `u16::checked_add_signed`: `some` exactly when the sum stays in u16
range. -/
def checkedAddSigned (a : Nat) (d : Int) : Option Nat :=
  if 0 ≤ (a : Int) + d ∧ (a : Int) + d < 65536 then some ((a : Int) + d).toNat else none

/-- `RecordHeader` of src/src/innodb/page/record.rs. -/
structure RecordHeader where
  info_flags : InfoFlags
  num_records_owned : Nat
  order : Nat
  record_type : RecordType
  next_record_offset : Option Nat
  deriving DecidableEq, Repr

/-- `RecordHeader::try_from_offset`: reads the five bytes
`buffer[offset-5 .. offset]`.  The `assert!(offset < u16::MAX)` and the
slice accesses (underflow of `offset - 5`, or an index at or beyond the
buffer length) panic. -/
def RecordHeader.try_from_offset (buffer : List Byte) (offset : Nat) : RunRes RecordHeader :=
  if 65535 ≤ offset then .panic
  else if offset < 5 ∨ buffer.length < offset then .panic
  else
    match InfoFlags.try_from_primitive (byteAt buffer (offset - 5) >>> 4) with
    | .error e => .err e
    | .ok flags =>
      match RecordType.try_from_primitive (be16at buffer (offset - 4) &&& 0x7) with
      | none => .err .recordTypeOutOfRange
      | some rt =>
        .ok { info_flags := flags,
              num_records_owned := byteAt buffer (offset - 5) &&& 0xF,
              order := be16at buffer (offset - 4) >>> 3,
              record_type := rt,
              next_record_offset :=
                checkedAddSigned offset
                  (i16fromBE (byteAt buffer (offset - 2)) (byteAt buffer (offset - 1))) }

/-- `Record` of src/src/innodb/page/record.rs. -/
structure Record where
  header : RecordHeader
  offset : Nat
  buf : List Byte
  deriving DecidableEq, Repr

/-- `Record::try_from_offset`. -/
def Record.try_from_offset (buffer : List Byte) (offset : Nat) : RunRes Record :=
  match RecordHeader.try_from_offset buffer offset with
  | .ok h => .ok { header := h, offset := offset, buf := buffer }
  | .err e => .err e
  | .panic => .panic

/-- `Record::next`: `None` for Supremum; otherwise
`self.header.next_record_offset()` first `unwrap`s the stored
`Option<u16>` (a panic when the checked add overflowed), and a failed
`Record::try_from_offset` at the target is logged and turned into `None`
(panics propagate). -/
def Record.next (r : Record) : RunRes (Option Record) :=
  if r.header.record_type = .Supremum then .ok none
  else
    match r.header.next_record_offset with
    | none => .panic
    | some off =>
      match Record.try_from_offset r.buf off with
      | .ok rec => .ok (some rec)
      | .err _ => .ok none
      | .panic => .panic

/-- A 10-byte page body holding a conventional record at offset 10 whose
next-record delta is `-100` (bytes `FF 9C`), so the checked add
`10 + (-100)` overflows. -/
def c5buf : List Byte := [0, 0, 0, 0, 0, 0x01, 0, 0, 0xFF, 0x9C]

/-- The record parsed from `c5buf` at offset 10. -/
def c5record : Record :=
  { header := { info_flags := { min_rec := false, deleted := false },
                num_records_owned := 1,
                order := 0,
                record_type := .Conventional,
                next_record_offset := none },
    offset := 10,
    buf := c5buf }

/-- A 10-byte page body holding, at offset 10, a record header whose 3-bit
record-type field is 4 (outside the closed enum). -/
def c6buf : List Byte := [0, 0, 0, 0, 0, 0x01, 0, 0x04, 0, 0]



/-! ## Row variable-length pre-scan (src/src/innodb/table/row.rs) -/

/-- One iteration of the variable-length header loop of
`Row::try_from_record_and_table` (lines 101-123) for a non-null
variable-length field: read one length byte from the backwards stream; when
the declared max length exceeds 255 and bit 7 of that byte is set, read a
second byte and form `tmp = (len << 8) | byte2`; the recorded length is
then `tmp & 0x3FFF` and the field is externally stored iff
`tmp & 0x4000 != 0`.  `none` models the `.unwrap()` panic on an exhausted
stream. -/
def readVarLen (f : Field) (stream : List Byte) : Option ((Nat × Bool) × List Byte) :=
  match stream with
  | [] => none
  | len1 :: rest =>
    if 255 < f.field_type.max_len ∧ len1 &&& 0x80 ≠ 0 then
      match rest with
      | [] => none
      | byte2 :: rest2 =>
        some ((((len1 <<< 8) ||| byte2) &&& 0x3FFF,
               decide (((len1 <<< 8) ||| byte2) &&& 0x4000 ≠ 0)), rest2)
    else some ((len1, false), rest)

/-- The variable-length header loop of `Row::try_from_record_and_table`:
fields come with their indices in cluster-then-data order, null nullable
fields are skipped, and every other variable-length field consumes its
length byte(s) via `readVarLen`; returns the length-map entries, the
externally-stored indices, and the rest of the stream. -/
def varLenScan (fields : List (Nat × Field)) (isNull : Nat → Bool) (stream : List Byte) :
    Option (List (Nat × Nat) × List Nat × List Byte) :=
  match fields with
  | [] => some ([], [], stream)
  | (idx, f) :: rest =>
    if f.field_type.is_variable then
      if f.nullable && isNull idx then varLenScan rest isNull stream
      else
        match readVarLen f stream with
        | none => none
        | some ((len, ext), stream2) =>
          match varLenScan rest isNull stream2 with
          | none => none
          | some (lens, exts, stream3) =>
            some ((idx, len) :: lens, if ext then idx :: exts else exts, stream3)
    else varLenScan rest isNull stream

/-- A `Text(300)` field in a one-byte-per-char charset
(`max_len = 300 > 255`). -/
def c4field : Field := { name := [], field_type := .Text 300 { max_bytes := 1 }, nullable := false }



/-! ## Extern references and row value parsing
(src/src/innodb/table/blob_header.rs, src/src/innodb/table/row.rs) -/

/-- `ExternReference` of src/src/innodb/table/blob_header.rs. -/
structure ExternReference where
  space_id : Nat
  page_number : Nat
  offset : Nat
  owner : Bool
  inherit : Bool
  length : Nat
  deriving DecidableEq, Repr

/-- `ExternReference::from_bytes`: 20 bytes; the top bit of the 8-byte
length word is not-owner, the next is inherit, the low 60 bits the
length. -/
def ExternReference.from_bytes (bytes : List Byte) : Option ExternReference :=
  if bytes.length < 20 then none
  else
    some { space_id := be32at bytes 0,
           page_number := be32at bytes 4,
           offset := be32at bytes 8,
           owner := decide (be64at bytes 12 &&& 0x8000000000000000 = 0),
           inherit := decide (be64at bytes 12 &&& 0x4000000000000000 ≠ 0),
           length := be64at bytes 12 &&& 0x0FFFFFFFFFFFFFFF }

/-- `TableDefinition` of src/src/innodb/table/mod.rs (the SQL parser that
builds it is out of scope). -/
structure TableDefinition where
  name : List Nat
  cluster_columns : List Field
  data_columns : List Field
  deriving DecidableEq, Repr

/-- `Row` of src/src/innodb/table/row.rs: the per-record scan state
(null map, externally-stored indices, length map) plus the record. -/
structure Row where
  td : TableDefinition
  null_map : List (Nat × Bool)
  extern_fields : List Nat
  field_len_map : List (Nat × Nat)
  record : Record
  deriving DecidableEq, Repr

/-- `HashMap::get(&idx).cloned()` on the length map. -/
def mapLookup (m : List (Nat × Nat)) (k : Nat) : Option Nat :=
  (m.find? (fun e => e.1 == k)).map (fun e => e.2)

/-- `Row::parse_extern_field`.  `loadExtern` stands for `Row::load_extern`
(the buffer-manager pin plus LOB-chain traversal behind it); `none` is any
of its `Err` returns (failed pin, page-number mismatch, read incomplete),
which the source logs and downgrades to `Skipped`.  A panic inside
`Field::parse` on the loaded bytes propagates. -/
def Row.parse_extern_field (f : Field) (extern_header : ExternReference)
    (loadExtern : ExternReference → Option (List Byte)) : Option FieldValue :=
  match loadExtern extern_header with
  | some buf => (f.parse buf (some extern_header.length)).map (fun p => p.1)
  | none => some .Skipped

/-- `Row::parse_single_field`: extern fields must have a recorded length of
exactly 20 (`assert_eq!`), decode those 20 bytes as an `ExternReference`
and recover through `Row::parse_extern_field`; other fields go through
`Field::parse` with the recorded length. -/
def Row.parse_single_field (row : Row) (f : Field) (buf : List Byte) (idx : Nat)
    (loadExtern : ExternReference → Option (List Byte)) : Option (FieldValue × Nat) :=
  if row.extern_fields.contains idx then
    match mapLookup row.field_len_map idx with
    | none => none
    | some len =>
      if len ≠ 20 then none
      else if buf.length < 20 then none
      else
        match ExternReference.from_bytes (buf.take 20) with
        | none => none
        | some extern_header =>
          (Row.parse_extern_field f extern_header loadExtern).map (fun v => (v, len))
  else f.parse buf (mapLookup row.field_len_map idx)

/-- The per-column loop of `Row::parse_values`: each field is parsed at the
running offset into the record buffer (`&buf[off..]` panics past the end)
and advances the offset by the consumed length. -/
def parseFieldsLoop (row : Row) (loadExtern : ExternReference → Option (List Byte)) :
    List (Nat × Field) → Nat → Option (List FieldValue × Nat)
  | [], off => some ([], off)
  | (idx, f) :: rest, off =>
    if row.record.buf.length < off then none
    else
      match row.parse_single_field f (row.record.buf.drop off) idx loadExtern with
      | none => none
      | some (v, consumed) =>
        match parseFieldsLoop row loadExtern rest (off + consumed) with
        | none => none
        | some (vs, off2) => some (v :: vs, off2)

/-- `Row::parse_values`: cluster columns from the record offset, then 13
hidden-system-column bytes, then data columns with shifted indices; the
table must have at least one cluster column (`assert_ne!`). -/
def Row.parse_values (row : Row) (loadExtern : ExternReference → Option (List Byte)) :
    Option (List FieldValue) :=
  if row.td.cluster_columns.length = 0 then none
  else
    match parseFieldsLoop row loadExtern row.td.cluster_columns.enum row.record.offset with
    | none => none
    | some (values1, off1) =>
      match parseFieldsLoop row loadExtern
          (row.td.data_columns.enum.map
            (fun p => (p.1 + row.td.cluster_columns.length, p.2)))
          (off1 + 6 + 7) with
      | none => none
      | some (values2, _) => some (values1 ++ values2)

/-- A placeholder field used as a `getD` default in statements. -/
def dummyField : Field := { name := [], field_type := .Date, nullable := false }

/-- An unsigned `TINYINT NOT NULL` column. -/
def c8fld : Field := { name := [], field_type := .TinyInt false, nullable := false }

/-- A one-column row over the single byte `05`. -/
def c8row : Row :=
  { td := { name := [], cluster_columns := [c8fld], data_columns := [] },
    null_map := [],
    extern_fields := [],
    field_len_map := [],
    record := { header := { info_flags := { min_rec := false, deleted := false },
                            num_records_owned := 0, order := 0,
                            record_type := .Conventional, next_record_offset := none },
                offset := 0, buf := [5] } }

/-- A concrete extern reference. -/
def c8ref : ExternReference :=
  { space_id := 7, page_number := 42, offset := 40, owner := true, inherit := false,
    length := 8000 }



/-! ## LRU buffer manager (src/src/innodb/buffer_manager/lru.rs)

The fixed 16-frame vectors `page_pin_counter` and `lru_list` are modelled
as functions read at indices below 16; `page_pin_map` (a `HashMap`) is an
association list whose keys are unique in every reachable state.  The
16 KiB `backing_store` frames carry no information the bookkeeping needs:
the disk abstraction delivers the decoded header fields directly (see
`DiskPage`). -/

def LRU_PAGE_COUNT : Nat := 16

/-- `u64::MAX`. -/
def U64MAX : Nat := 2 ^ 64 - 1

/-- Recoverable failures of LRU operations (`?`-returns in the source). -/
inductive LRUFail where
  | ioError
  | pageNotFound
  deriving DecidableEq, Repr

/-- Panic sites of LRU operations. -/
inductive LRUPanic where
  | tooManyPages
  | cantFindFrame
  | assertSpaceId
  | assertOffset
  | assertChecksum
  | unpinNotPinned
  | pinCountUnderflow
  deriving DecidableEq, Repr

/-- Outcome of an LRU operation: success, a returned error, or a panic. -/
inductive LRUOut (α : Type) where
  | ok (a : α)
  | err (e : LRUFail)
  | panic (p : LRUPanic)
  deriving DecidableEq, Repr

/-- The mutable bookkeeping of `LRUBufferManager`. -/
structure LRUState where
  page_pin_counter : Nat → Nat
  page_pin_map : List ((Nat × Nat) × Nat)
  lru_list : Nat → Nat

/-- Function update: `vec[i] = v`. -/
def updFn (g : Nat → Nat) (i v : Nat) : Nat → Nat := fun j => if j = i then v else g j

/-- `LRUBufferManager::new`: empty directory, all counters and timestamps
zero. -/
def LRUBufferManager.new : LRUState :=
  { page_pin_counter := fun _ => 0, page_pin_map := [], lru_list := fun _ => 0 }

/-- What `pin` observes of a page read from disk after `Page::from_bytes`
(which never fails on a 16 KiB frame, claim C3): the header's space id and
page number, and whether the stored checksum equals the CRC-32C. -/
structure DiskPage where
  space_id : Nat
  offset : Nat
  checksum_ok : Bool
  deriving DecidableEq, Repr

/-- The min-tracking accumulator pass of `LRUBufferManager::find_free`:
starting from `(u64::MAX, 0)`, take `(timestamp, idx)` whenever the frame's
timestamp is strictly below the minimum so far and its pin counter is
zero. -/
def victimFold (lru pins : Nat → Nat) (n : Nat) : Nat × Nat :=
  (List.range n).foldl
    (fun acc idx => if lru idx < acc.1 ∧ pins idx = 0 then (lru idx, idx) else acc)
    (U64MAX, 0)

/-- `LRUBufferManager::find_free`.  The source's single pass returns at the
first frame with timestamp zero, so the pass splits into that first-zero
search and, only when no zero exists, the completed min fold
(`victimFold`).  A surviving minimum evicts its directory entry (the
reverse lookup panics if none matches) and zeroes the frame's timestamp;
`u64::MAX` surviving means every frame was pinned: panic
"pin too many pages". -/
def find_free (s : LRUState) : LRUOut Nat × LRUState :=
  match (List.range LRU_PAGE_COUNT).find? (fun i => decide (s.lru_list i = 0)) with
  | some idx => (.ok idx, s)
  | none =>
    let mt := victimFold s.lru_list s.page_pin_counter LRU_PAGE_COUNT
    if mt.1 ≠ U64MAX then
      match s.page_pin_map.find? (fun e => decide (e.2 = mt.2)) with
      | none => (.panic .cantFindFrame, s)
      | some entry =>
        (.ok mt.2,
          { s with
            page_pin_map := s.page_pin_map.filter (fun e => !(decide (e.1 = entry.1))),
            lru_list := updFn s.lru_list mt.2 0 })
    else (.panic .tooManyPages, s)

/-- `LRUBufferManager::pin` at clock value `t`, with the filesystem
abstracted: `openOk` says whether `File::open`/`seek` on the space's
`.pages` file succeeds (before victim selection), `readRes` the outcome of
`read_exact` into the frame (after it).  A resident page just gets its
counter bumped and timestamp touched; otherwise the read page is validated
(all-zero id pair → `PageNotFound`; header/checksum `assert_eq!`s panic)
before any bookkeeping is updated. -/
def pin (s : LRUState) (space_id offset : Nat) (t : Nat)
    (openOk : Nat → Bool) (readRes : Nat → Nat → Option DiskPage) :
    LRUOut Unit × LRUState :=
  match s.page_pin_map.find? (fun e => decide (e.1 = (space_id, offset))) with
  | some entry =>
    (.ok (),
      { s with
        page_pin_counter := updFn s.page_pin_counter entry.2 (s.page_pin_counter entry.2 + 1),
        lru_list := updFn s.lru_list entry.2 t })
  | none =>
    if openOk space_id = false then (.err .ioError, s)
    else
      match find_free s with
      | (.ok free_frame, s1) =>
        match readRes space_id offset with
        | none => (.err .ioError, s1)
        | some dp =>
          if dp.space_id = 0 ∧ dp.offset = 0 then (.err .pageNotFound, s1)
          else if dp.space_id ≠ space_id then (.panic .assertSpaceId, s1)
          else if dp.offset ≠ offset then (.panic .assertOffset, s1)
          else if dp.checksum_ok = false then (.panic .assertChecksum, s1)
          else
            (.ok (),
              { s1 with
                lru_list := updFn s1.lru_list free_frame t,
                page_pin_counter :=
                  updFn s1.page_pin_counter free_frame (s1.page_pin_counter free_frame + 1),
                page_pin_map := ((space_id, offset), free_frame) :: s1.page_pin_map })
      | (.err e, s1) => (.err e, s1)
      | (.panic p, s1) => (.panic p, s1)

/-- `LRUBufferManager::unpin` for a page with the given header ids:
unpinning an unmapped page panics, and decrementing an already-zero counter
is the debug-mode underflow panic (the counter is left unchanged). -/
def unpin (s : LRUState) (space_id offset : Nat) : LRUOut Unit × LRUState :=
  match s.page_pin_map.find? (fun e => decide (e.1 = (space_id, offset))) with
  | some entry =>
    if s.page_pin_counter entry.2 = 0 then (.panic .pinCountUnderflow, s)
    else
      (.ok (),
        { s with
          page_pin_counter :=
            updFn s.page_pin_counter entry.2 (s.page_pin_counter entry.2 - 1) })
  | none => (.panic .unpinNotPinned, s)

/-- States reachable from a fresh manager by any sequence of `pin` and
`unpin` calls (successful, failing or panicking), with clock values that
are nonzero (timestamp 0 is the free marker) and below `u64::MAX` (the
nanosecond clock cast to u64). -/
inductive Reach : LRUState → Prop where
  | init : Reach LRUBufferManager.new
  | pin_step (s : LRUState) (space_id offset t : Nat)
      (openOk : Nat → Bool) (readRes : Nat → Nat → Option DiskPage) :
      Reach s → 0 < t → t < U64MAX →
      Reach (pin s space_id offset t openOk readRes).2
  | unpin_step (s : LRUState) (space_id offset : Nat) :
      Reach s → Reach (unpin s space_id offset).2

/-- The directory/bookkeeping invariant of the LRU manager: mapped frames
are in range with live timestamps, keys and frame values are unique, every
live timestamp and every pinned frame is backed by a directory entry, and
timestamps stay below `u64::MAX`. -/
def LRUInv (s : LRUState) : Prop :=
  (∀ e ∈ s.page_pin_map, e.2 < LRU_PAGE_COUNT) ∧
  (∀ e ∈ s.page_pin_map, s.lru_list e.2 ≠ 0) ∧
  (∀ e1 ∈ s.page_pin_map, ∀ e2 ∈ s.page_pin_map, e1.1 = e2.1 → e1 = e2) ∧
  (∀ e1 ∈ s.page_pin_map, ∀ e2 ∈ s.page_pin_map, e1.2 = e2.2 → e1 = e2) ∧
  (∀ i, i < LRU_PAGE_COUNT → s.lru_list i ≠ 0 → ∃ e ∈ s.page_pin_map, e.2 = i) ∧
  (∀ i, i < LRU_PAGE_COUNT → s.page_pin_counter i ≠ 0 → ∃ e ∈ s.page_pin_map, e.2 = i) ∧
  (∀ i, s.lru_list i < U64MAX)


end InnoDB

open InnoDB

/-! ## Helper lemmas -/

theorem nforce_eq (g : Nat → Nat) (x : Nat) : nforce g x = g x := by
  cases x <;> rfl

theorem iterOp_spec (f : Nat → Nat) :
    ∀ fuel n a, n ≤ fuel → iterOp f fuel n a = f^[n] a := by
  intro fuel
  induction fuel with
  | zero =>
    intro n a h
    have hn : n = 0 := by omega
    subst hn; rfl
  | succ fuel ih =>
    intro n a h
    rcases Nat.eq_zero_or_pos n with h0 | h0
    · subst h0; rfl
    rcases Nat.mod_two_eq_zero_or_one n with hm | hm
    · obtain ⟨k, rfl⟩ : ∃ k, n = 2 * k := ⟨n / 2, by omega⟩
      have hk2 : 2 * k / 2 = k := by omega
      simp only [iterOp, if_neg (by omega : ¬ 2 * k = 0), if_neg (by omega : ¬ 2 * k % 2 = 1),
        nforce_eq, hk2]
      rw [ih k a (by omega), ih k _ (by omega), ← Function.iterate_add_apply]
      congr 1
      omega
    · obtain ⟨m, rfl⟩ : ∃ m, n = m + 1 := ⟨n - 1, by omega⟩
      simp only [iterOp, if_neg (by omega : ¬ m + 1 = 0), if_pos hm, nforce_eq,
        Nat.add_sub_cancel]
      rw [ih m _ (by omega), Function.iterate_succ_apply]

/-- Left fold of a two-argument function over a block of zero bytes is an
iteration of its partial application. -/
theorem foldl_zeros_iterate (f : Nat → Nat → Nat) (n a : Nat) :
    List.foldl f a (List.replicate n 0) = (fun x => f x 0)^[n] a := by
  induction n generalizing a with
  | zero => rfl
  | succ k ih => rw [List.replicate_succ, List.foldl_cons, ih, Function.iterate_succ_apply]

set_option maxRecDepth 4000 in
theorem fold_bytes_zeros_22 : fold_bytes (List.replicate 22 0) = 2834488576 := by
  decide

theorem fold_bytes_zeros_body : fold_bytes (List.replicate 16338 0) = 3036475136 := by
  show List.foldl _ 0 _ = _
  rw [foldl_zeros_iterate, ← iterOp_spec _ 16338 16338 0 le_rfl]
  decide

set_option maxRecDepth 4000 in
theorem claimed_fold_bytes_zeros_22 :
    claimed_fold_bytes (List.replicate 22 0) = 3920092416 := by
  decide

theorem claimed_fold_bytes_zeros_body :
    claimed_fold_bytes (List.replicate 16338 0) = 3461541632 := by
  show List.foldl _ 0 _ = _
  rw [foldl_zeros_iterate, ← iterOp_spec _ 16338 16338 0 le_rfl]
  decide

theorem zeroPage_partial : zeroPage.partial_page_header = List.replicate 22 0 := by
  show ((List.replicate 16384 0).drop 4).take 22 = _
  rw [List.drop_replicate, List.take_replicate]
  norm_num

theorem zeroPage_body : zeroPage.body = List.replicate 16338 0 := by
  show ((List.replicate 16384 0).drop 38).take 16338 = _
  rw [List.drop_replicate, List.take_replicate]
  norm_num

/-! ## Claim C2 -/

/-- Claim C2 (counterexample): on the all-zero page, `innodb_checksum()`
differs from the claim's reference formula: the claim's hex mask constants
`0x628E5B0F`/`0x57417087` are not the code's `1653893711`/`1463735687`. -/
theorem c2_counterexample :
    Page.innodb_checksum zeroPage ≠ claimed_innodb_checksum zeroPage.raw_data := by
  have h1 : Page.innodb_checksum zeroPage = 1575996416 := by
    rw [Page.innodb_checksum, zeroPage_partial, zeroPage_body, fold_bytes_zeros_22,
      fold_bytes_zeros_body]
    decide
  have h2 : claimed_innodb_checksum zeroPage.raw_data = 3086666752 := by
    have hp : spec_partial_header zeroPage.raw_data = List.replicate 22 0 := by
      show ((List.replicate 16384 0).drop 4).take 22 = _
      rw [List.drop_replicate, List.take_replicate]
      norm_num
    have hb : spec_body zeroPage.raw_data = List.replicate 16338 0 := by
      show ((List.replicate 16384 0).drop 38).take 16338 = _
      rw [List.drop_replicate, List.take_replicate]
      norm_num
    rw [claimed_innodb_checksum, hp, hb, claimed_fold_bytes_zeros_22,
      claimed_fold_bytes_zeros_body]
    decide
  rw [h1, h2]
  decide

/-- Claim C2 (amended): `innodb_checksum()` equals the reference fold
formula computed with the code's mask constants `1653893711 = 0x62946A4F`
and `1463735687 = 0x573ED587` over the partial header (bytes 4..26) and the
body (bytes 38..16376), and `crc32_checksum()` equals the XOR of the
CRC-32C of the partial header and of the body. -/
theorem c2_checksums_match_reference (p : Page) :
    p.innodb_checksum = amended_innodb_checksum p.raw_data ∧
    p.crc32_checksum = spec_crc32_checksum p.raw_data := by
  have hfp : fold_pair = amended_fold_pair := by
    funext a b
    simp only [fold_pair, amended_fold_pair, HASH_RANDOM_MASK, HASH_RANDOM_MASK2, M32]
  constructor
  · simp only [Page.innodb_checksum, amended_innodb_checksum, fold_bytes,
      amended_fold_bytes, Page.partial_page_header, Page.body, spec_partial_header,
      spec_body, FIL_HEADER_PARTIAL_OFFSET, FIL_HEADER_PARTIAL_SIZE,
      FIL_HEADER_SIZE, FIL_PAGE_BODY_OFFSET, FIL_PAGE_BODY_SIZE, FIL_PAGE_SIZE,
      FIL_TRAILER_SIZE, FIL_HEADER_OFFSET, M32, hfp]
  · simp only [Page.crc32_checksum, spec_crc32_checksum, Page.partial_page_header,
      Page.body, spec_partial_header, spec_body, FIL_HEADER_PARTIAL_OFFSET,
      FIL_HEADER_PARTIAL_SIZE, FIL_HEADER_SIZE, FIL_PAGE_BODY_OFFSET,
      FIL_PAGE_BODY_SIZE, FIL_PAGE_SIZE, FIL_TRAILER_SIZE, FIL_HEADER_OFFSET]

/-! ## Claim C3 -/

set_option maxRecDepth 4000 in
/-- Claim C3: `Page::from_bytes` either returns a page whose `raw_data` is
the input buffer, or fails with the length error; on every 16384-byte
buffer it succeeds (header decode never fails, unknown page types fall back
to `Unknown`), and on every other length it fails with the length error. -/
theorem c3_from_bytes_total (buf : List Byte) :
    (buf.length = 16384 → ∃ p : Page, Page.from_bytes buf = .ok p ∧ p.raw_data = buf) ∧
    (buf.length ≠ 16384 → Page.from_bytes buf = .error .invalidLength) := by
  constructor
  · intro h
    simp only [Page.from_bytes, FILHeader.from_bytes, FILTrailer.from_bytes,
      List.length_take, List.length_drop, h, FIL_PAGE_SIZE, FIL_TRAILER_SIZE]
    norm_num
  · intro h
    rw [Page.from_bytes, if_pos h]

/-- Claim C3 witness: the all-zero 16384-byte buffer parses, with
`raw_data` the input. -/
theorem c3_witness :
    ∃ p : Page, Page.from_bytes (List.replicate 16384 0) = .ok p ∧
      p.raw_data = List.replicate 16384 0 :=
  (c3_from_bytes_total (List.replicate 16384 0)).1 (by rw [List.length_replicate])

/-! ## Claim C1 -/

/-- Claim C1 (code bug): on the 8-byte wire form of `v = -1` the decoder
`parse_signed_int` returns `0` (release semantics; a debug build panics on
the overflowing shift `1u64 << 64`), while the reference decoding of the
claim yields `-1`.  The claimed equality fails at width 8. -/
theorem c1_width8_negative_diverges :
    parse_signed_int c1buf 8 = some 0 ∧
    spec_signed_decode c1buf 8 = -1 ∧
    (some (0 : Int) : Option Int) ≠ some (-1) := by
  refine ⟨by decide, by decide, by decide⟩

/-! ## Claim C7 -/

/-- Claim C7 (counterexample): `Char(2)` on the valid-UTF-8 bytes
`61 0A` ("a" followed by a line feed) returns `"a"`: the source's
`trim_end()` removes all trailing whitespace, not only ASCII spaces, so the
claimed value (the bytes unchanged, having no trailing space) differs. -/
theorem c7_counterexample :
    Field.parse { name := [], field_type := .Char 2 { max_bytes := 1 }, nullable := false }
        [0x61, 0x0A] none = some (.String [0x61], 2) ∧
    spec_trim_trailing_spaces [0x61, 0x0A] = [0x61, 0x0A] ∧
    FieldValue.String [0x61] ≠ .String [0x61, 0x0A] := by
  refine ⟨by decide, by decide, by decide⟩

/-- Claim C7 (amended): for a `Char(n, cs)` field on a buffer whose first
`n` bytes are valid UTF-8, `Field::parse` consumes exactly `n` bytes and
returns those bytes with trailing whitespace (Rust `trim_end`, the Unicode
White_Space characters, not only ASCII space) removed. -/
theorem c7_char_parse (f : Field) (n : Nat) (cs : InnoDBCharset) (buf : List Byte)
    (chars : List Nat) (lopt : Option Nat)
    (hf : f.field_type = .Char n cs) (hlen : n ≤ buf.length)
    (hdec : utf8Decode (buf.take n) = some chars) :
    f.parse buf lopt = some (.String (trim_end chars), n) := by
  have hnl : ¬ buf.length < n := by omega
  simp [Field.parse, hf, hnl, hdec]

/-- Claim C7 witness: `Char(3)` on `61 62 20 7A` consumes 3 bytes and trims
the trailing space. -/
theorem c7_char_parse_witness :
    Field.parse { name := [], field_type := .Char 3 { max_bytes := 1 }, nullable := false }
        [0x61, 0x62, 0x20, 0x7A] none = some (.String (trim_end [0x61, 0x62, 0x20]), 3) :=
  c7_char_parse _ 3 { max_bytes := 1 } _ [0x61, 0x62, 0x20] none rfl (by decide) (by decide)

/-! ## Claim C5 -/

/-- Claim C5 (code bug): a conventional record whose computed next offset
overflows parses fine (with `next_record_offset = None`), but `next()`
panics on the `unwrap` instead of returning `None` as the claim requires. -/
theorem c5_next_panics_on_overflow :
    Record.try_from_offset c5buf 10 = .ok c5record ∧
    c5record.header.record_type ≠ .Supremum ∧
    c5record.header.next_record_offset = none ∧
    Record.next c5record = .panic := by
  refine ⟨by decide, by decide, by decide, by decide⟩

/-! ## Claim C6 -/

/-- Claim C6 (counterexample): a record-type field of 4 makes construction
fail, but with the `num_enum` conversion error, not the `InvalidPage`
kind. -/
theorem c6_counterexample :
    RecordHeader.try_from_offset c6buf 10 = .err .recordTypeOutOfRange ∧
    RecordHeader.try_from_offset c6buf 10 ≠ .err (.innodb .InvalidPage) := by
  refine ⟨by decide, by decide⟩

/-- Claim C6 (amended): when the 3-bit record-type field holds a value
outside `{0,1,2,3}` (and the header is otherwise readable: offset in
bounds, info-flags nibble valid), record construction fails — with the
enum-conversion error, not `InvalidPage`. -/
theorem c6_record_type_out_of_range (buffer : List Byte) (offset : Nat)
    (h1 : offset < 65535) (h2 : 5 ≤ offset) (h3 : offset ≤ buffer.length)
    (h4 : byteAt buffer (offset - 5) >>> 4 &&& 0xFC = 0)
    (h5 : 4 ≤ be16at buffer (offset - 4) &&& 0x7) :
    RecordHeader.try_from_offset buffer offset = .err .recordTypeOutOfRange := by
  have hv7 : be16at buffer (offset - 4) &&& 0x7 ≤ 7 := Nat.and_le_right
  have hnone : RecordType.try_from_primitive (be16at buffer (offset - 4) &&& 0x7) = none := by
    set v := be16at buffer (offset - 4) &&& 0x7 with hv
    interval_cases v <;> rfl
  unfold RecordHeader.try_from_offset
  rw [if_neg (by omega), if_neg (by omega)]
  rcases hfl : InfoFlags.try_from_primitive (byteAt buffer (offset - 5) >>> 4) with e | flags
  · exfalso
    unfold InfoFlags.try_from_primitive at hfl
    rw [if_neg (by simp [h4])] at hfl
    simp at hfl
  · simp only [hfl, hnone]

/-- Claim C6 witness: the concrete buffer `c6buf` satisfies the amended
theorem's hypotheses at offset 10. -/
theorem c6_witness :
    RecordHeader.try_from_offset c6buf 10 = .err .recordTypeOutOfRange :=
  c6_record_type_out_of_range c6buf 10 (by decide) (by decide) (by decide) (by decide) (by decide)

/-! ## Claim C4 -/

/-- Claim C4: scanning a non-null variable-length field first reads one
byte `b1`; exactly when the field's declared `max_len > 255` and
`b1 & 0x80 ≠ 0` a second byte `b2` is read and, with
`tmp = (b1 << 8) | b2`, the recorded length is `tmp & 0x3FFF` and the field
index is marked externally stored iff `tmp & 0x4000 ≠ 0`; otherwise the
recorded length is `b1` and the field is not marked external. -/
theorem c4_varlen_two_byte_iff (idx : Nat) (f : Field) (rest : List (Nat × Field))
    (isNull : Nat → Bool) (b1 : Nat) (s : List Byte)
    (hvar : f.field_type.is_variable = true)
    (hnn : ¬ (f.nullable = true ∧ isNull idx = true)) :
    varLenScan ((idx, f) :: rest) isNull (b1 :: s) =
      if 255 < f.field_type.max_len ∧ b1 &&& 0x80 ≠ 0 then
        match s with
        | [] => none
        | b2 :: s2 =>
          match varLenScan rest isNull s2 with
          | none => none
          | some (lens, exts, s3) =>
            some ((idx, ((b1 <<< 8) ||| b2) &&& 0x3FFF) :: lens,
              if ((b1 <<< 8) ||| b2) &&& 0x4000 ≠ 0 then idx :: exts else exts, s3)
      else
        match varLenScan rest isNull s with
        | none => none
        | some (lens, exts, s3) => some ((idx, b1) :: lens, exts, s3) := by
  have hb : (f.nullable && isNull idx) = false := by
    cases hn : f.nullable <;> cases hi : isNull idx <;> simp_all
  by_cases hc : 255 < f.field_type.max_len ∧ b1 &&& 0x80 ≠ 0
  · cases s with
    | nil => simp [varLenScan, readVarLen, hvar, hb, hc]
    | cons b2 s2 =>
      cases hr : varLenScan rest isNull s2 with
      | none => simp [varLenScan, readVarLen, hvar, hb, hc, hr]
      | some t =>
        obtain ⟨lens, exts, s3⟩ := t
        by_cases he : ((b1 <<< 8) ||| b2) &&& 0x4000 ≠ 0
        · simp [varLenScan, readVarLen, hvar, hb, hc, hr, he]
        · simp [varLenScan, readVarLen, hvar, hb, hc, hr, he]
  · cases hr : varLenScan rest isNull s with
    | none => simp [varLenScan, readVarLen, hvar, hb, hc, hr]
    | some t =>
      obtain ⟨lens, exts, s3⟩ := t
      simp [varLenScan, readVarLen, hvar, hb, hc, hr]

/-- Claim C4 witness: a `Text(300)` field scanned at bytes `C4 05` takes
the two-byte path: length `0x0405`, marked external (bit 14 of `0xC405`). -/
theorem c4_witness :
    varLenScan [(0, c4field)] (fun _ => false) [0xC4, 0x05] =
      some ([(0, 0x0405)], [0], ([] : List Byte)) := by
  rw [c4_varlen_two_byte_iff 0 c4field [] (fun _ => false) 0xC4 [0x05] rfl (by simp [c4field])]
  decide

/-! ## Claim C8 -/

/-- Replacing the extern oracle with an always-failing one turns a
successfully parsed single field into one that still parses with the same
consumed length, with the same value when the field is not extern. -/
theorem parse_single_field_none_oracle (row : Row) (o : ExternReference → Option (List Byte))
    (f : Field) (buf : List Byte) (idx : Nat) (v : FieldValue) (c : Nat)
    (h : row.parse_single_field f buf idx o = some (v, c)) :
    ∃ v0, row.parse_single_field f buf idx (fun _ => none) = some (v0, c) ∧
      (row.extern_fields.contains idx = false → v0 = v) := by
  unfold Row.parse_single_field at h ⊢
  cases hx : row.extern_fields.contains idx with
  | false =>
    simp only [hx, Bool.false_eq_true, if_false] at h ⊢
    exact ⟨v, h, fun _ => rfl⟩
  | true =>
    simp only [hx, if_true] at h ⊢
    cases hl : mapLookup row.field_len_map idx with
    | none => simp only [hl] at h; exact Option.noConfusion h
    | some len =>
      simp only [hl] at h ⊢
      by_cases h20 : len ≠ 20
      · simp only [if_pos h20] at h; exact Option.noConfusion h
      · simp only [if_neg h20] at h ⊢
        by_cases hbl : buf.length < 20
        · simp only [if_pos hbl] at h; exact Option.noConfusion h
        · simp only [if_neg hbl] at h ⊢
          cases he : ExternReference.from_bytes (buf.take 20) with
          | none => simp only [he] at h; exact Option.noConfusion h
          | some eh =>
            simp only [he] at h ⊢
            rw [Option.map_eq_some'] at h
            obtain ⟨w, hw, hwc⟩ := h
            have hc : c = len := by
              have := congrArg Prod.snd hwc
              simpa using this.symm
            refine ⟨.Skipped, ?_, fun hfalse => Bool.noConfusion hfalse⟩
            rw [show Row.parse_extern_field f eh (fun _ => none) = some .Skipped from rfl]
            simp [hc]

/-- A successful field loop yields exactly one value per field. -/
theorem parseFieldsLoop_length (row : Row) (o : ExternReference → Option (List Byte)) :
    ∀ (fields : List (Nat × Field)) (off : Nat) (vs : List FieldValue) (off2 : Nat),
      parseFieldsLoop row o fields off = some (vs, off2) → vs.length = fields.length := by
  intro fields
  induction fields with
  | nil =>
    intro off vs off2 h
    unfold parseFieldsLoop at h
    cases h
    rfl
  | cons p rest ih =>
    obtain ⟨idx, f⟩ := p
    intro off vs off2 h
    unfold parseFieldsLoop at h
    by_cases hb : row.record.buf.length < off
    · rw [if_pos hb] at h; exact Option.noConfusion h
    rw [if_neg hb] at h
    cases hs : row.parse_single_field f (row.record.buf.drop off) idx o with
    | none => simp only [hs] at h; exact Option.noConfusion h
    | some pr =>
      obtain ⟨v, consumed⟩ := pr
      simp only [hs] at h
      cases hr : parseFieldsLoop row o rest (off + consumed) with
      | none => simp only [hr] at h; exact Option.noConfusion h
      | some pr2 =>
        obtain ⟨vs', off2'⟩ := pr2
        simp only [hr] at h
        cases h
        simp [ih _ _ _ hr]

/-- The first component of the `k`-th entry of `l.enum` is `k`. -/
theorem enum_getD_fst {α : Type} (l : List α) (j : Nat) (d : Nat × α) (hj : j < l.length) :
    (l.enum.getD j d).1 = j := by
  rw [List.getD_eq_getElem _ _ (by simpa [List.enum_length] using hj)]
  simp [List.getElem_enum]

/-- Loop-level oracle comparison: the always-failing-oracle run succeeds at
the same final offset, with equal values at every non-extern position. -/
theorem parseFieldsLoop_none_oracle (row : Row) (o : ExternReference → Option (List Byte)) :
    ∀ (fields : List (Nat × Field)) (off : Nat) (vs : List FieldValue) (off2 : Nat),
      parseFieldsLoop row o fields off = some (vs, off2) →
      ∃ vs0, parseFieldsLoop row (fun _ => none) fields off = some (vs0, off2) ∧
        vs0.length = vs.length ∧
        ∀ k, k < fields.length →
          row.extern_fields.contains (fields.getD k (0, dummyField)).1 = false →
          vs0.getD k .Null = vs.getD k .Null := by
  intro fields
  induction fields with
  | nil =>
    intro off vs off2 h
    unfold parseFieldsLoop at h
    cases h
    exact ⟨[], rfl, rfl, fun k hk => absurd hk (by simp)⟩
  | cons p rest ih =>
    obtain ⟨idx, f⟩ := p
    intro off vs off2 h
    unfold parseFieldsLoop at h
    by_cases hb : row.record.buf.length < off
    · rw [if_pos hb] at h; exact Option.noConfusion h
    rw [if_neg hb] at h
    cases hs : row.parse_single_field f (row.record.buf.drop off) idx o with
    | none => simp only [hs] at h; exact Option.noConfusion h
    | some pr =>
      obtain ⟨v, consumed⟩ := pr
      simp only [hs] at h
      cases hr : parseFieldsLoop row o rest (off + consumed) with
      | none => simp only [hr] at h; exact Option.noConfusion h
      | some pr2 =>
        obtain ⟨vs', off2'⟩ := pr2
        simp only [hr] at h
        cases h
        obtain ⟨v0, h0, h0v⟩ := parse_single_field_none_oracle row o f _ idx v consumed hs
        obtain ⟨vs0, hloop0, hlen0, hpos0⟩ := ih (off + consumed) vs' off2 hr
        refine ⟨v0 :: vs0, ?_, by simp [hlen0], ?_⟩
        · unfold parseFieldsLoop
          rw [if_neg hb]
          simp only [h0, hloop0]
        · intro k hk hcf
          cases k with
          | zero =>
            simp only [List.getD_cons_zero]
            have hcf0 : row.extern_fields.contains idx = false := by simpa using hcf
            rw [h0v hcf0]
          | succ k2 =>
            simp only [List.getD_cons_succ]
            exact hpos0 k2 (by simpa using hk) (by simpa using hcf)

/-- Claim C8: a failing extern load yields the `Skipped` sentinel instead
of an error; `parse_values` returns one value per column; and replacing the
extern oracle by an always-failing one leaves every non-extern field's
value unchanged (extern fields consume 20 bytes either way, so the
remaining offsets agree). -/
theorem c8_extern_failure_isolated (row : Row) (o : ExternReference → Option (List Byte))
    (f : Field) (eh : ExternReference) (vs : List FieldValue)
    (h1 : o eh = none) (h2 : row.parse_values o = some vs) :
    Row.parse_extern_field f eh o = some .Skipped ∧
    vs.length = row.td.cluster_columns.length + row.td.data_columns.length ∧
    ∃ vs0, row.parse_values (fun _ => none) = some vs0 ∧ vs0.length = vs.length ∧
      ∀ j, j < vs.length → row.extern_fields.contains j = false →
        vs0.getD j .Null = vs.getD j .Null := by
  have hske : Row.parse_extern_field f eh o = some .Skipped := by
    unfold Row.parse_extern_field
    rw [h1]
  unfold Row.parse_values at h2
  by_cases hc0 : row.td.cluster_columns.length = 0
  · rw [if_pos hc0] at h2; exact Option.noConfusion h2
  rw [if_neg hc0] at h2
  cases hl1 : parseFieldsLoop row o row.td.cluster_columns.enum row.record.offset with
  | none => simp only [hl1] at h2; exact Option.noConfusion h2
  | some p1 =>
    obtain ⟨vs1, off1⟩ := p1
    simp only [hl1] at h2
    cases hl2 : parseFieldsLoop row o
        (row.td.data_columns.enum.map
          (fun p => (p.1 + row.td.cluster_columns.length, p.2)))
        (off1 + 6 + 7) with
    | none => simp only [hl2] at h2; exact Option.noConfusion h2
    | some p2 =>
      obtain ⟨vs2, off2⟩ := p2
      simp only [hl2] at h2
      cases h2
      have e1 : vs1.length = row.td.cluster_columns.length := by
        have := parseFieldsLoop_length row o _ _ _ _ hl1
        simpa [List.enum_length] using this
      have e2 : vs2.length = row.td.data_columns.length := by
        have := parseFieldsLoop_length row o _ _ _ _ hl2
        simpa [List.enum_length] using this
      refine ⟨hske, by simp [e1, e2], ?_⟩
      obtain ⟨vs01, hA, hAlen, hApos⟩ := parseFieldsLoop_none_oracle row o _ _ _ _ hl1
      obtain ⟨vs02, hB, hBlen, hBpos⟩ := parseFieldsLoop_none_oracle row o _ _ _ _ hl2
      refine ⟨vs01 ++ vs02, ?_, by simp [hAlen, hBlen], ?_⟩
      · unfold Row.parse_values
        rw [if_neg hc0]
        simp only [hA, hB]
      · intro j hj hcf
        by_cases hjn : j < vs1.length
        · rw [List.getD_append _ _ _ _ (by omega : j < vs01.length),
            List.getD_append _ _ _ _ hjn]
          refine hApos j (by simpa [List.enum_length] using (e1 ▸ hjn)) ?_
          rw [enum_getD_fst _ j _ (e1 ▸ hjn)]
          exact hcf
        · have hjlen : j < vs1.length + vs2.length := by
            simpa [List.length_append] using hj
          rw [List.getD_append_right _ _ _ _ (by omega : vs01.length ≤ j),
            List.getD_append_right _ _ _ _ (by omega : vs1.length ≤ j), hAlen]
          have hjm : j - vs1.length < row.td.data_columns.length := by omega
          refine hBpos (j - vs1.length) (by simpa [List.enum_length, List.length_map] using hjm) ?_
          have hfst : ((row.td.data_columns.enum.map
              (fun p => (p.1 + row.td.cluster_columns.length, p.2))).getD (j - vs1.length)
                (0, dummyField)).1 = j := by
            rw [List.getD_eq_getElem _ _ (by simpa [List.enum_length, List.length_map] using hjm)]
            simp only [List.getElem_map, List.getElem_enum]
            omega
          rw [hfst]
          exact hcf

/-- Claim C8 witness: the one-column row `c8row` parses under the
always-failing oracle; `c8ref`'s load fails and is downgraded to
`Skipped`. -/
theorem c8_witness :
    Row.parse_extern_field c8fld c8ref (fun _ => none) = some .Skipped ∧
    [FieldValue.UnsignedInt 5].length = c8row.td.cluster_columns.length + c8row.td.data_columns.length ∧
    ∃ vs0, c8row.parse_values (fun _ => none) = some vs0 ∧
      vs0.length = [FieldValue.UnsignedInt 5].length ∧
      ∀ j, j < [FieldValue.UnsignedInt 5].length → c8row.extern_fields.contains j = false →
        vs0.getD j .Null = [FieldValue.UnsignedInt 5].getD j .Null :=
  c8_extern_failure_isolated c8row (fun _ => none) c8fld c8ref [FieldValue.UnsignedInt 5]
    rfl (by decide)

/-! ## Claims C9 and C10 -/

/-- A successful `find?` over `List.range n` returns an index below `n`
satisfying the predicate, with every earlier index failing it. -/
theorem range_find_some (n : Nat) (p : Nat → Bool) (j : Nat)
    (h : (List.range n).find? p = some j) :
    j < n ∧ p j = true ∧ ∀ k, k < j → p k = false := by
  induction n generalizing p j with
  | zero => simp [List.range_zero] at h
  | succ m ih =>
    rw [List.range_succ_eq_map] at h
    by_cases hp : p 0 = true
    · rw [List.find?_cons_of_pos _ hp] at h
      cases h
      exact ⟨Nat.succ_pos m, hp, fun k hk => absurd hk (by omega)⟩
    · rw [List.find?_cons_of_neg _ (by simp [hp])] at h
      rw [List.find?_map] at h
      obtain ⟨j2, hj2, rfl⟩ := Option.map_eq_some'.mp h
      obtain ⟨hlt, hpj, hfirst⟩ := ih (p ∘ Nat.succ) j2 hj2
      refine ⟨by omega, hpj, ?_⟩
      intro k hk
      cases k with
      | zero => simpa using hp
      | succ k2 => exact hfirst k2 (by omega)

/-- A failed `find?` over `List.range n` means no index below `n`
satisfies the predicate. -/
theorem range_find_none (n : Nat) (p : Nat → Bool)
    (h : (List.range n).find? p = none) :
    ∀ k, k < n → p k = false := by
  intro k hk
  have := List.find?_eq_none.mp h k (List.mem_range.mpr hk)
  simpa using this

/-- The min fold either keeps its `(u64::MAX, 0)` seed — then every frame
is pinned — or lands on an unpinned frame holding the minimum timestamp
among unpinned frames. -/
theorem victimFold_spec (lru pins : Nat → Nat) (n : Nat)
    (hlt : ∀ i, i < n → lru i < U64MAX) :
    (victimFold lru pins n = (U64MAX, 0) ∧ ∀ i, i < n → pins i ≠ 0) ∨
    ((victimFold lru pins n).1 < U64MAX ∧ (victimFold lru pins n).2 < n ∧
      pins (victimFold lru pins n).2 = 0 ∧
      lru (victimFold lru pins n).2 = (victimFold lru pins n).1 ∧
      ∀ i, i < n → pins i = 0 → (victimFold lru pins n).1 ≤ lru i) := by
  induction n with
  | zero =>
    left
    constructor
    · rfl
    · intro i hi; omega
  | succ m ih =>
    have hlt2 : ∀ i, i < m → lru i < U64MAX := fun i hi => hlt i (by omega)
    have hstep : victimFold lru pins (m + 1) =
        (if lru m < (victimFold lru pins m).1 ∧ pins m = 0
          then (lru m, m) else victimFold lru pins m) := by
      unfold victimFold
      rw [List.range_succ, List.foldl_append]
      rfl
    rcases ih hlt2 with ⟨hmt, hall⟩ | ⟨h1, h2, h3, h4, h5⟩
    · by_cases hc : lru m < (victimFold lru pins m).1 ∧ pins m = 0
      · right
        rw [hstep, if_pos hc]
        refine ⟨hlt m (by omega), by omega, hc.2, rfl, ?_⟩
        intro i hi hpi
        rcases Nat.lt_or_ge i m with him | him
        · exact absurd hpi (hall i him)
        · have : i = m := by omega
          subst this
          exact le_rfl
      · left
        rw [hstep, if_neg hc]
        refine ⟨hmt, ?_⟩
        intro i hi
        rcases Nat.lt_or_ge i m with him | him
        · exact hall i him
        · have : i = m := by omega
          subst this
          intro hpi
          rw [hmt] at hc
          exact hc ⟨hlt i (by omega), hpi⟩
    · by_cases hc : lru m < (victimFold lru pins m).1 ∧ pins m = 0
      · right
        rw [hstep, if_pos hc]
        refine ⟨hlt m (by omega), by omega, hc.2, rfl, ?_⟩
        intro i hi hpi
        rcases Nat.lt_or_ge i m with him | him
        · have := h5 i him hpi
          omega
        · have : i = m := by omega
          subst this
          exact le_rfl
      · right
        rw [hstep, if_neg hc]
        refine ⟨h1, by omega, h3, h4, ?_⟩
        intro i hi hpi
        rcases Nat.lt_or_ge i m with him | him
        · exact h5 i him hpi
        · have him2 : i = m := by omega
          rcases Nat.lt_or_ge (lru i) (victimFold lru pins m).1 with hlm | hlm
          · rw [him2] at hlm hpi
            exact absurd ⟨hlm, hpi⟩ hc
          · exact hlm

attribute [irreducible] victimFold

/-- Under the invariant, a frame with timestamp 0 has pin counter 0. -/
theorem zero_frame_unpinned (s : LRUState) (hInv : LRUInv s) (j : Nat)
    (hj : j < LRU_PAGE_COUNT) (hz : s.lru_list j = 0) : s.page_pin_counter j = 0 := by
  by_contra hp
  obtain ⟨e, hmem, hval⟩ := hInv.2.2.2.2.2.1 j hj hp
  exact (hval ▸ hInv.2.1 e hmem) hz

/-- Under the invariant, no directory entry maps to a frame with
timestamp 0. -/
theorem zero_frame_unmapped (s : LRUState) (hInv : LRUInv s) (j : Nat)
    (hz : s.lru_list j = 0) : ∀ e ∈ s.page_pin_map, e.2 ≠ j := by
  intro e hmem hval
  exact (hval ▸ hInv.2.1 e hmem) hz

/-- When the first-zero search succeeds, `find_free` returns that frame and
leaves the state untouched. -/
theorem find_free_zero_case (s : LRUState) (j : Nat)
    (hz : (List.range LRU_PAGE_COUNT).find? (fun i => decide (s.lru_list i = 0)) = some j) :
    find_free s = (.ok j, s) := by
  unfold find_free
  rw [hz]

/-- With every frame pinned, `find_free` panics with "pin too many pages"
and leaves the state untouched. -/
theorem find_free_all_pinned (s : LRUState) (hInv : LRUInv s)
    (hap : ∀ i, i < LRU_PAGE_COUNT → s.page_pin_counter i ≠ 0) :
    find_free s = (.panic .tooManyPages, s) := by
  have hnz : (List.range LRU_PAGE_COUNT).find? (fun i => decide (s.lru_list i = 0)) = none := by
    rw [List.find?_eq_none]
    intro a ha
    simp only [decide_eq_true_eq]
    intro h0
    exact hap a (List.mem_range.mp ha) (zero_frame_unpinned s hInv a (List.mem_range.mp ha) h0)
  have hlt : ∀ i, i < LRU_PAGE_COUNT → s.lru_list i < U64MAX :=
    fun i _ => hInv.2.2.2.2.2.2 i
  rcases victimFold_spec s.lru_list s.page_pin_counter LRU_PAGE_COUNT hlt with
    ⟨hmt, _⟩ | ⟨_, h2, h3, _, _⟩
  · unfold find_free
    rw [hnz]
    simp only [hmt, ne_eq, not_true_eq_false, if_false]
  · exact absurd h3 (hap _ h2)

/-- The min branch of `find_free`: with no zero timestamp and some unpinned
frame, an unpinned minimum-timestamp frame is selected and evicted (its
directory entry removed, its timestamp zeroed), preserving the
invariant. -/
theorem find_free_min_case (s : LRUState) (hInv : LRUInv s)
    (hnz : (List.range LRU_PAGE_COUNT).find? (fun i => decide (s.lru_list i = 0)) = none)
    (hex : ∃ i, i < LRU_PAGE_COUNT ∧ s.page_pin_counter i = 0) :
    ∃ j s1, find_free s = (.ok j, s1) ∧ j < LRU_PAGE_COUNT ∧
      s.page_pin_counter j = 0 ∧
      (∀ i, i < LRU_PAGE_COUNT → s.page_pin_counter i = 0 → s.lru_list j ≤ s.lru_list i) ∧
      s1.lru_list = updFn s.lru_list j 0 ∧
      s1.page_pin_counter = s.page_pin_counter ∧
      (∀ e ∈ s1.page_pin_map, e ∈ s.page_pin_map ∧ e.2 ≠ j) ∧
      (∀ e ∈ s.page_pin_map, e.2 ≠ j → e ∈ s1.page_pin_map) ∧
      LRUInv s1 := by
  have hlru_ne : ∀ i, i < LRU_PAGE_COUNT → s.lru_list i ≠ 0 := by
    intro i hi
    have := range_find_none _ _ hnz i hi
    simpa using this
  have hlt : ∀ i, i < LRU_PAGE_COUNT → s.lru_list i < U64MAX :=
    fun i _ => hInv.2.2.2.2.2.2 i
  rcases victimFold_spec s.lru_list s.page_pin_counter LRU_PAGE_COUNT hlt with
    ⟨_, hall⟩ | ⟨h1, h2, h3, h4, h5⟩
  · obtain ⟨i, hi, hpi⟩ := hex
    exact absurd hpi (hall i hi)
  · set mt := victimFold s.lru_list s.page_pin_counter LRU_PAGE_COUNT with hmt
    obtain ⟨e0, he0mem, he0val⟩ := hInv.2.2.2.2.1 mt.2 h2 (hlru_ne mt.2 h2)
    have hfind : ∃ entry, s.page_pin_map.find? (fun e => decide (e.2 = mt.2)) = some entry := by
      cases hf : s.page_pin_map.find? (fun e => decide (e.2 = mt.2)) with
      | none =>
        have := List.find?_eq_none.mp hf e0 he0mem
        simp [he0val] at this
      | some entry => exact ⟨entry, rfl⟩
    obtain ⟨entry, hentry⟩ := hfind
    have hentry_mem : entry ∈ s.page_pin_map := List.mem_of_find?_eq_some hentry
    have hentry_val : entry.2 = mt.2 := by
      have := List.find?_some hentry
      simpa using this
    have hff : find_free s =
        (.ok mt.2,
          { s with
            page_pin_map := s.page_pin_map.filter (fun e => !(decide (e.1 = entry.1))),
            lru_list := updFn s.lru_list mt.2 0 }) := by
      unfold find_free
      rw [hnz]
      simp only [← hmt, if_pos (by omega : mt.1 ≠ U64MAX), hentry]
    have hmem1 : ∀ e, e ∈ s.page_pin_map.filter (fun e => !(decide (e.1 = entry.1))) ↔
        e ∈ s.page_pin_map ∧ e.1 ≠ entry.1 := by
      intro e
      rw [List.mem_filter]
      simp
    refine ⟨mt.2, _, hff, h2, h3, fun i hi hpi => by rw [h4]; exact h5 i hi hpi, rfl, rfl,
      ?_, ?_, ?_⟩
    · intro e hmem
      obtain ⟨hmem0, hne⟩ := (hmem1 e).mp hmem
      refine ⟨hmem0, ?_⟩
      intro hval
      exact hne (congrArg Prod.fst
        (hInv.2.2.2.1 e hmem0 entry hentry_mem (hval.trans hentry_val.symm)))
    · intro e hmem hval
      refine (hmem1 e).mpr ⟨hmem, ?_⟩
      intro hkey
      exact hval ((congrArg Prod.snd (hInv.2.2.1 e hmem entry hentry_mem hkey)).trans hentry_val)
    · -- LRUInv of the evicted state
      obtain ⟨i1, i2, i3, i4, i5, i6, i7⟩ := hInv
      refine ⟨?_, ?_, ?_, ?_, ?_, ?_, ?_⟩
      · intro e hmem
        exact i1 e ((hmem1 e).mp hmem).1
      · intro e hmem
        obtain ⟨hmem0, hne⟩ := (hmem1 e).mp hmem
        have hvne : e.2 ≠ mt.2 := by
          intro hval
          exact hne (congrArg Prod.fst (i4 e hmem0 entry hentry_mem (hval.trans hentry_val.symm)))
        simp only [updFn, if_neg hvne]
        exact i2 e hmem0
      · intro e1 hm1 e2 hm2 hkey
        exact i3 e1 ((hmem1 e1).mp hm1).1 e2 ((hmem1 e2).mp hm2).1 hkey
      · intro e1 hm1 e2 hm2 hval
        exact i4 e1 ((hmem1 e1).mp hm1).1 e2 ((hmem1 e2).mp hm2).1 hval
      · intro i hi hne
        have hine : i ≠ mt.2 := by
          intro heq
          rw [heq] at hne
          simp [updFn] at hne
        simp only [updFn, if_neg hine] at hne
        obtain ⟨e, hmem, hval⟩ := i5 i hi hne
        refine ⟨e, ?_, hval⟩
        refine (hmem1 e).mpr ⟨hmem, ?_⟩
        intro hkey
        have : e = entry := i3 e hmem entry hentry_mem hkey
        rw [this] at hval
        exact absurd (hval.symm.trans hentry_val) hine
      · intro i hi hpc
        have hine : i ≠ mt.2 := by
          intro heq
          rw [heq] at hpc
          exact hpc h3
        obtain ⟨e, hmem, hval⟩ := i6 i hi hpc
        refine ⟨e, ?_, hval⟩
        refine (hmem1 e).mpr ⟨hmem, ?_⟩
        intro hkey
        have he : e = entry := i3 e hmem entry hentry_mem hkey
        rw [he] at hval
        exact absurd (hval.symm.trans hentry_val) hine
      · intro i
        by_cases hieq : i = mt.2
        · simp [updFn, hieq, U64MAX]
        · simp only [updFn, if_neg hieq]
          exact i7 i

/-- Postcondition of a successful `find_free`: the invariant holds, the
frame is in range, unpinned, timestamp-zero, unmapped, and the directory
only shrank. -/
theorem find_free_ok_post (s : LRUState) (j : Nat) (s1 : LRUState) (hInv : LRUInv s)
    (h : find_free s = (.ok j, s1)) :
    LRUInv s1 ∧ j < LRU_PAGE_COUNT ∧ s1.page_pin_counter = s.page_pin_counter ∧
    s1.page_pin_counter j = 0 ∧ s1.lru_list j = 0 ∧
    (∀ e ∈ s1.page_pin_map, e.2 ≠ j) ∧ (∀ e ∈ s1.page_pin_map, e ∈ s.page_pin_map) := by
  cases hz : (List.range LRU_PAGE_COUNT).find? (fun i => decide (s.lru_list i = 0)) with
  | some j0 =>
    rw [find_free_zero_case s j0 hz] at h
    cases h
    obtain ⟨hj0, hp0, _⟩ := range_find_some _ _ _ hz
    have hz0 : s.lru_list j = 0 := by simpa using hp0
    exact ⟨hInv, hj0, rfl, zero_frame_unpinned s hInv j hj0 hz0, hz0,
      zero_frame_unmapped s hInv j hz0, fun e he => he⟩
  | none =>
    by_cases hex : ∃ i, i < LRU_PAGE_COUNT ∧ s.page_pin_counter i = 0
    · obtain ⟨j2, s2, hff, hj2, hp2, _, hlru2, hpc2, hsub2, _, hInv2⟩ :=
        find_free_min_case s hInv hz hex
      rw [hff] at h
      cases h
      refine ⟨hInv2, hj2, hpc2, by rw [hpc2]; exact hp2, by rw [hlru2]; simp [updFn], ?_, ?_⟩
      · intro e he
        exact (hsub2 e he).2
      · intro e he
        exact (hsub2 e he).1
    · push_neg at hex
      have : ∀ i, i < LRU_PAGE_COUNT → s.page_pin_counter i ≠ 0 := by
        intro i hi
        exact fun h0 => absurd h0 (by intro hc; exact absurd (hex i hi hc) (by simp))
      rw [find_free_all_pinned s hInv this] at h
      cases h

/-- `find_free` preserves the invariant on every path. -/
theorem find_free_inv (s : LRUState) (hInv : LRUInv s) : LRUInv (find_free s).2 := by
  cases hz : (List.range LRU_PAGE_COUNT).find? (fun i => decide (s.lru_list i = 0)) with
  | some j0 =>
    rw [find_free_zero_case s j0 hz]
    exact hInv
  | none =>
    by_cases hex : ∃ i, i < LRU_PAGE_COUNT ∧ s.page_pin_counter i = 0
    · obtain ⟨j2, s2, hff, _, _, _, _, _, _, _, hInv2⟩ := find_free_min_case s hInv hz hex
      rw [hff]
      exact hInv2
    · push_neg at hex
      rw [find_free_all_pinned s hInv (fun i hi => hex i hi)]
      exact hInv

/-- The fresh manager satisfies the invariant. -/
theorem lru_inv_init : LRUInv LRUBufferManager.new := by
  refine ⟨by simp [LRUBufferManager.new], by simp [LRUBufferManager.new],
    by simp [LRUBufferManager.new], by simp [LRUBufferManager.new],
    ?_, ?_, ?_⟩
  · intro i _ hne
    exact absurd rfl hne
  · intro i _ hne
    exact absurd rfl hne
  · intro i
    simp [LRUBufferManager.new, U64MAX]

/-- `pin` preserves the invariant on every path (resident hit, I/O
failure, validation failure after eviction, and successful insert). -/
theorem pin_inv (s : LRUState) (space_id offset t : Nat)
    (openOk : Nat → Bool) (readRes : Nat → Nat → Option DiskPage)
    (hInv : LRUInv s) (ht0 : 0 < t) (htM : t < U64MAX) :
    LRUInv (pin s space_id offset t openOk readRes).2 := by
  unfold pin
  cases hres : s.page_pin_map.find? (fun e => decide (e.1 = (space_id, offset))) with
  | some entry =>
    have hmem := List.mem_of_find?_eq_some hres
    obtain ⟨i1, i2, i3, i4, i5, i6, i7⟩ := hInv
    refine ⟨i1, ?_, i3, i4, ?_, ?_, ?_⟩
    · intro e he
      by_cases hie : e.2 = entry.2
      · simp only [updFn, hie, if_true, eq_self_iff_true]
        omega
      · simp only [updFn, if_neg hie]
        exact i2 e he
    · intro i hi hne
      by_cases hie : i = entry.2
      · exact ⟨entry, hmem, hie.symm⟩
      · simp only [updFn, if_neg hie] at hne
        exact i5 i hi hne
    · intro i hi hpc
      by_cases hie : i = entry.2
      · exact ⟨entry, hmem, hie.symm⟩
      · simp only [updFn, if_neg hie] at hpc
        exact i6 i hi hpc
    · intro i
      by_cases hie : i = entry.2
      · simp only [updFn, if_pos hie]
        exact htM
      · simp only [updFn, if_neg hie]
        exact i7 i
  | none =>
    by_cases ho : openOk space_id = false
    · rw [if_pos ho]
      exact hInv
    rw [if_neg ho]
    rcases hffs : find_free s with ⟨r, s1⟩
    have hs1 : LRUInv s1 := by
      have := find_free_inv s hInv
      rw [hffs] at this
      exact this
    cases r with
    | err e => simp only [hffs]; exact hs1
    | panic p => simp only [hffs]; exact hs1
    | ok frame =>
      simp only [hffs]
      obtain ⟨hInv1, hfr, hpc1, hpcf, hlru0, hval1, hsub1⟩ :=
        find_free_ok_post s frame s1 hInv hffs
      cases hread : readRes space_id offset with
      | none => exact hs1
      | some dp =>
        show LRUInv (if dp.space_id = 0 ∧ dp.offset = 0 then (LRUOut.err LRUFail.pageNotFound, s1)
          else if dp.space_id ≠ space_id then (LRUOut.panic LRUPanic.assertSpaceId, s1)
          else if dp.offset ≠ offset then (LRUOut.panic LRUPanic.assertOffset, s1)
          else if dp.checksum_ok = false then (LRUOut.panic LRUPanic.assertChecksum, s1)
          else (LRUOut.ok (),
            { page_pin_counter := updFn s1.page_pin_counter frame (s1.page_pin_counter frame + 1),
              page_pin_map := ((space_id, offset), frame) :: s1.page_pin_map,
              lru_list := updFn s1.lru_list frame t })).2
        by_cases h00 : dp.space_id = 0 ∧ dp.offset = 0
        · rw [if_pos h00]
          exact hs1
        rw [if_neg h00]
        by_cases hsp : dp.space_id ≠ space_id
        · rw [if_pos hsp]
          exact hs1
        rw [if_neg hsp]
        by_cases hofs : dp.offset ≠ offset
        · rw [if_pos hofs]
          exact hs1
        rw [if_neg hofs]
        by_cases hck : dp.checksum_ok = false
        · rw [if_pos hck]
          exact hs1
        rw [if_neg hck]
        -- the successful insert
        have hkey : ∀ e ∈ s1.page_pin_map, e.1 ≠ (space_id, offset) := by
          intro e he
          have := List.find?_eq_none.mp hres e (hsub1 e he)
          simpa using this
        obtain ⟨j1, j2, j3, j4, j5, j6, j7⟩ := hInv1
        refine ⟨?_, ?_, ?_, ?_, ?_, ?_, ?_⟩
        · intro e he
          rcases List.mem_cons.mp he with rfl | he2
          · exact hfr
          · exact j1 e he2
        · intro e he
          rcases List.mem_cons.mp he with rfl | he2
          · simp [updFn]
            omega
          · have hne : e.2 ≠ frame := hval1 e he2
            simp only [updFn, if_neg hne]
            exact j2 e he2
        · intro e1 he1 e2 he2 hkeq
          rcases List.mem_cons.mp he1 with rfl | hm1 <;> rcases List.mem_cons.mp he2 with rfl | hm2
          · rfl
          · exact absurd hkeq.symm (hkey e2 hm2)
          · exact absurd hkeq (hkey e1 hm1)
          · exact j3 e1 hm1 e2 hm2 hkeq
        · intro e1 he1 e2 he2 hveq
          rcases List.mem_cons.mp he1 with rfl | hm1 <;> rcases List.mem_cons.mp he2 with rfl | hm2
          · rfl
          · exact absurd hveq.symm (hval1 e2 hm2)
          · exact absurd hveq (hval1 e1 hm1)
          · exact j4 e1 hm1 e2 hm2 hveq
        · intro i hi hne
          by_cases hie : i = frame
          · exact ⟨((space_id, offset), frame), List.mem_cons_self _ _, hie.symm⟩
          · simp only [updFn, if_neg hie] at hne
            obtain ⟨e, hm, hv⟩ := j5 i hi hne
            exact ⟨e, List.mem_cons_of_mem _ hm, hv⟩
        · intro i hi hpc
          by_cases hie : i = frame
          · exact ⟨((space_id, offset), frame), List.mem_cons_self _ _, hie.symm⟩
          · simp only [updFn, if_neg hie] at hpc
            obtain ⟨e, hm, hv⟩ := j6 i hi hpc
            exact ⟨e, List.mem_cons_of_mem _ hm, hv⟩
        · intro i
          by_cases hie : i = frame
          · simp only [updFn, if_pos hie]
            exact htM
          · simp only [updFn, if_neg hie]
            exact j7 i

/-- `unpin` preserves the invariant (it only decrements a counter or
panics). -/
theorem unpin_inv (s : LRUState) (space_id offset : Nat) (hInv : LRUInv s) :
    LRUInv (unpin s space_id offset).2 := by
  unfold unpin
  cases hres : s.page_pin_map.find? (fun e => decide (e.1 = (space_id, offset))) with
  | none => exact hInv
  | some entry =>
    show LRUInv (if s.page_pin_counter entry.2 = 0 then (LRUOut.panic LRUPanic.pinCountUnderflow, s)
      else (LRUOut.ok (),
        { page_pin_counter := updFn s.page_pin_counter entry.2 (s.page_pin_counter entry.2 - 1),
          page_pin_map := s.page_pin_map, lru_list := s.lru_list })).2
    by_cases hc : s.page_pin_counter entry.2 = 0
    · rw [if_pos hc]
      exact hInv
    · rw [if_neg hc]
      obtain ⟨i1, i2, i3, i4, i5, i6, i7⟩ := hInv
      have hmem := List.mem_of_find?_eq_some hres
      refine ⟨i1, i2, i3, i4, i5, ?_, i7⟩
      intro i hi hpc
      by_cases hie : i = entry.2
      · exact ⟨entry, hmem, hie.symm⟩
      · simp only [updFn, if_neg hie] at hpc
        exact i6 i hi hpc

/-- Every reachable LRU state satisfies the invariant. -/
theorem lru_inv_of_reach (s : LRUState) (h : Reach s) : LRUInv s := by
  induction h with
  | init => exact lru_inv_init
  | pin_step s space_id offset t openOk readRes _ ht0 htM ih =>
    exact pin_inv s space_id offset t openOk readRes ih ht0 htM
  | unpin_step s space_id offset _ ih =>
    exact unpin_inv s space_id offset ih

/-- Claim C9: in every reachable state, victim selection takes the first
frame with timestamp 0 if one exists (a frame that is necessarily
unpinned); otherwise an unpinned frame of minimum timestamp — never a
pinned frame; and when every frame is pinned, a `pin` of a non-resident
page (whose file opens) fails with "pin too many pages", leaving the state
unchanged: no pin held, no guard produced. -/
theorem c9_victim_selection (s : LRUState) (hs : Reach s) :
    ((∃ i, i < LRU_PAGE_COUNT ∧ s.lru_list i = 0) →
      ∃ j, j < LRU_PAGE_COUNT ∧ s.lru_list j = 0 ∧ (∀ k, k < j → s.lru_list k ≠ 0) ∧
        s.page_pin_counter j = 0 ∧ find_free s = (.ok j, s)) ∧
    ((∀ i, i < LRU_PAGE_COUNT → s.lru_list i ≠ 0) →
      (∃ i, i < LRU_PAGE_COUNT ∧ s.page_pin_counter i = 0) →
      ∃ j, j < LRU_PAGE_COUNT ∧ s.page_pin_counter j = 0 ∧ (find_free s).1 = .ok j ∧
        (∀ i, i < LRU_PAGE_COUNT → s.page_pin_counter i = 0 → s.lru_list j ≤ s.lru_list i)) ∧
    (∀ (space_id offset t : Nat) (openOk : Nat → Bool)
        (readRes : Nat → Nat → Option DiskPage),
      s.page_pin_map.find? (fun e => decide (e.1 = (space_id, offset))) = none →
      openOk space_id = true →
      (∀ i, i < LRU_PAGE_COUNT → s.page_pin_counter i ≠ 0) →
      pin s space_id offset t openOk readRes = (.panic .tooManyPages, s)) := by
  have hInv := lru_inv_of_reach s hs
  refine ⟨?_, ?_, ?_⟩
  · rintro ⟨i, hi, hzi⟩
    cases hz : (List.range LRU_PAGE_COUNT).find? (fun k => decide (s.lru_list k = 0)) with
    | none =>
      have := range_find_none _ _ hz i hi
      simp [hzi] at this
    | some j =>
      obtain ⟨hj, hpj, hfirst⟩ := range_find_some _ _ _ hz
      refine ⟨j, hj, by simpa using hpj, ?_, ?_, find_free_zero_case s j hz⟩
      · intro k hk
        have := hfirst k hk
        simpa using this
      · exact zero_frame_unpinned s hInv j hj (by simpa using hpj)
  · intro hall hex
    cases hz : (List.range LRU_PAGE_COUNT).find? (fun k => decide (s.lru_list k = 0)) with
    | some j =>
      obtain ⟨hj, hpj, _⟩ := range_find_some _ _ _ hz
      exact absurd (by simpa using hpj) (hall j hj)
    | none =>
      obtain ⟨j, s1, hff, hj, hpinj, hmin, _⟩ := find_free_min_case s hInv hz hex
      exact ⟨j, hj, hpinj, by rw [hff], hmin⟩
  · intro space_id offset t openOk readRes hnon hopen hap
    unfold pin
    rw [hnon]
    rw [if_neg (by simp [hopen])]
    rw [find_free_all_pinned s hInv hap]

/-- Claim C10: in every reachable state the directory is injective (no two
entries share a frame), every mapped frame index is below 16 and carries a
nonzero last-touch timestamp, and every frame with a nonzero pin counter is
the image of exactly one directory entry. -/
theorem c10_directory_invariants (s : LRUState) (hs : Reach s) :
    (∀ e1, e1 ∈ s.page_pin_map → ∀ e2, e2 ∈ s.page_pin_map → e1.2 = e2.2 → e1 = e2) ∧
    (∀ e, e ∈ s.page_pin_map → e.2 < LRU_PAGE_COUNT ∧ s.lru_list e.2 ≠ 0) ∧
    (∀ i, i < LRU_PAGE_COUNT → s.page_pin_counter i ≠ 0 →
      ∃ e, e ∈ s.page_pin_map ∧ e.2 = i ∧
        ∀ e2, e2 ∈ s.page_pin_map → e2.2 = i → e2 = e) := by
  have hInv := lru_inv_of_reach s hs
  obtain ⟨i1, i2, i3, i4, i5, i6, i7⟩ := hInv
  refine ⟨fun e1 h1 e2 h2 => i4 e1 h1 e2 h2, fun e he => ⟨i1 e he, i2 e he⟩, ?_⟩
  intro i hi hpc
  obtain ⟨e, hm, hv⟩ := i6 i hi hpc
  exact ⟨e, hm, hv, fun e2 hm2 hv2 => i4 e2 hm2 e hm (hv2.trans hv.symm)⟩

/-- Claim C9 witness: on the fresh manager, frame 0 has timestamp 0, so
victim selection returns frame 0 with no state change. -/
theorem c9_witness :
    LRUBufferManager.new.page_pin_counter 0 = 0 ∧
    find_free LRUBufferManager.new = (.ok 0, LRUBufferManager.new) := by
  have h := (c9_victim_selection LRUBufferManager.new Reach.init).1
    ⟨0, by norm_num [LRU_PAGE_COUNT], rfl⟩
  obtain ⟨j, hj, hz, hfirst, hpin, hff⟩ := h
  have hj0 : j = 0 := by
    by_contra hne
    exact hfirst 0 (by omega) rfl
  rw [hj0] at hpin hff
  exact ⟨hpin, hff⟩

/-- Claim C10 witness: the conclusions instantiated at the fresh
manager. -/
theorem c10_witness :
    (∀ e1, e1 ∈ LRUBufferManager.new.page_pin_map →
      ∀ e2, e2 ∈ LRUBufferManager.new.page_pin_map → e1.2 = e2.2 → e1 = e2) ∧
    (∀ e, e ∈ LRUBufferManager.new.page_pin_map →
      e.2 < LRU_PAGE_COUNT ∧ LRUBufferManager.new.lru_list e.2 ≠ 0) ∧
    (∀ i, i < LRU_PAGE_COUNT → LRUBufferManager.new.page_pin_counter i ≠ 0 →
      ∃ e, e ∈ LRUBufferManager.new.page_pin_map ∧ e.2 = i ∧
        ∀ e2, e2 ∈ LRUBufferManager.new.page_pin_map → e2.2 = i → e2 = e) :=
  c10_directory_invariants LRUBufferManager.new Reach.init
